import Mathlib

/-!
Shallow embedding of the read-only FAT32 driver (crate `fat32`): the MBR
partition search, the mutation surface, the FAT entry decoder and cluster
chain iterator, the directory decoder with LFN reassembly, cluster I/O
(`read_chain` / `read_cluster`), the file read/seek protocol, and the sector
cache.  Machine integers are modelled as `Nat` / `Int` with explicit wrapping
where the Rust code can wrap; fallible operations return an explicit result
type; Rust panics are a distinct outcome.  Iteration whose termination
depends on on-disk data is modelled with explicit fuel: a `none` result
means the fuel ran out before the loop finished.
-/

/-- Error kinds used by the driver (std::io::ErrorKind values it constructs,
plus `unsupported`, which the spec expects from mutation operations). -/
inductive IOEK where
  | ioError
  | notFound
  | invalidData
  | invalidInput
  | badSignature
  | unsupported
deriving DecidableEq, Repr

/-- Result of a non-panicking fallible operation (Rust `Result`). -/
inductive RRes (α : Type) where
  | ok (a : α)
  | err (e : IOEK)
deriving DecidableEq, Repr

/-- Outcome of an operation that may also panic (`unimplemented!`, `unwrap`). -/
inductive Outcome (α : Type) where
  | ok (a : α)
  | err (e : IOEK)
  | panicked (msg : String)
deriving DecidableEq, Repr

/- ## MBR (src/fat32/src/mbr.rs) -/

/-- One 16-byte partition table entry; the CHS fields are ignored by the
driver and omitted.  Field values are the decoded little-endian integers. -/
structure PartitionEntryM where
  bootable : Nat
  partition_type : Nat
  relative_sector : Nat
  len : Nat
deriving DecidableEq, Repr

/-- The master boot record after the on-disk decode: the four partition
entries and the 16-bit signature at offset 510. -/
structure MasterBootRecordM where
  partitions : List PartitionEntryM
  signature : Nat
deriving DecidableEq, Repr

/-- mbr.rs `Error`. -/
inductive MbrErrorM where
  | ioError
  | unknownBootIndicator (idx : Nat)
  | badSignature
deriving DecidableEq, Repr

/-- The partition-validation loop of `MasterBootRecord::from`: the first
index whose bootable byte is neither 0x00 nor 0x80. -/
def findInvalidBoot : List PartitionEntryM → Nat → Option Nat
  | [], _ => none
  | p :: rest, i =>
    if p.bootable ≠ 0x00 ∧ p.bootable ≠ 0x80 then some i
    else findInvalidBoot rest (i + 1)

/-- Result of `MasterBootRecord::from` (its own error enum). -/
inductive MbrRes where
  | ok (r : MasterBootRecordM)
  | err (e : MbrErrorM)
deriving DecidableEq, Repr

/-- `MasterBootRecord::from` after the sector read: checks the 0xAA55
signature, then validates every bootable byte. -/
def mbrValidate (r : MasterBootRecordM) : MbrRes :=
  if r.signature ≠ 0xAA55 then .err .badSignature
  else
    match findInvalidBoot r.partitions 0 with
    | some i => .err (.unknownBootIndicator i)
    | none => .ok r

/-- Modelled from the spec: `find_partition_with_type` is called from
`VFat::from` but its definition is not in src/.  Per the spec (section 4.1,
the driver searches the partition table, preferring the first match), it
returns the first partition entry whose `partition_type` equals the
argument. -/
def findPartitionWithType (r : MasterBootRecordM) (t : Nat) : Option PartitionEntryM :=
  r.partitions.find? (fun p => p.partition_type == t)

/-- The partition search in `VFat::from` (vfat.rs lines 30-33), verbatim:
`find_partition_with_type(0xC).or_else(|| find_partition_with_type(0xC))`.
A `none` result makes the mount fail with `Error::NotFound`. -/
def vfatPartitionSearch (r : MasterBootRecordM) : Option PartitionEntryM :=
  (findPartitionWithType r 0xC).orElse (fun _ => findPartitionWithType r 0xC)

/- ## The mutation surface (vfat.rs lines 223-241, file.rs lines 28-31 and 73-81) -/

/-- Metadata carried by every in-memory entry (metadata.rs / dir.rs).
Timestamps are the raw 16-bit date and time words. -/
structure MetadataM where
  isReadOnly : Bool
  isHidden : Bool
  createdDate : Nat
  createdTime : Nat
  accessedDate : Nat
  accessedTime : Nat
  modifiedDate : Nat
  modifiedTime : Nat
deriving DecidableEq, Repr

/-- In-memory `File` (file.rs).  The shared drive handle is passed
separately to each operation; names are lists of Unicode code points. -/
structure FileM where
  cluster : Nat
  name : List Nat
  metadata : MetadataM
  size : Nat
  offset : Nat
deriving DecidableEq, Repr

/-- In-memory `Dir` (dir.rs), minus the shared drive handle. -/
structure DirM where
  cluster : Nat
  name : List Nat
  metadata : MetadataM
deriving DecidableEq, Repr

/-- `FileSystem::create_file` for `&Shared<VFat>`: `unimplemented!("read
only file system")`, which panics with the message below. -/
def createFileM (_path : String) : Outcome FileM :=
  .panicked "not implemented: read only file system"

/-- `FileSystem::create_dir`: `unimplemented!("read only file system")`. -/
def createDirM (_path : String) (_parents : Bool) : Outcome DirM :=
  .panicked "not implemented: read only file system"

/-- `FileSystem::rename`: `unimplemented!("read only file system")`. -/
def renameM (_from _to : String) : Outcome Unit :=
  .panicked "not implemented: read only file system"

/-- `FileSystem::remove`: `unimplemented!("read only file system")`. -/
def removeM (_path : String) (_children : Bool) : Outcome Unit :=
  .panicked "not implemented: read only file system"

/-- `io::Write::write` for `File`: `unimplemented!()`. -/
def fileWriteM (_f : FileM) (_buf : List Nat) : Outcome Nat :=
  .panicked "not implemented"

/-- `io::Write::flush` for `File`: `unimplemented!()`. -/
def fileFlushM (_f : FileM) : Outcome Unit :=
  .panicked "not implemented"

/-- `traits::File::sync` for `File`: `unimplemented!()`. -/
def fileSyncM (_f : FileM) : Outcome Unit :=
  .panicked "not implemented"

/- ## FAT entries and the cluster-chain iterator
   (src/fat32/src/vfat/fat.rs, cluster.rs, vfat.rs lines 89-103) -/

/-- fat.rs `Status`.  Cluster numbers are the 28-bit values produced by
`Cluster::from`. -/
inductive StatusM where
  | free
  | reserved
  | data (next : Nat)
  | bad
  | eoc (v : Nat)
deriving DecidableEq, Repr

/-- `Cluster::from(raw)`: the raw 32-bit value with the top four bits
masked off (`raw & !(0xF << 28)`), i.e. the value modulo 2^28. -/
def clusterFrom (raw : Nat) : Nat :=
  raw % 2 ^ 28

/-- `FatEntry::status` (fat.rs lines 27-40): classify the low 28 bits. -/
def fatStatus (v : Nat) : StatusM :=
  let e := v % 2 ^ 28
  if e = 0x00000000 then .free
  else if e = 0x00000001 ∨ (0x0FFFFFF0 ≤ e ∧ e ≤ 0x0FFFFFF6) then .reserved
  else if 0x00000002 ≤ e ∧ e ≤ 0x0FFFFFEF then .data (clusterFrom e)
  else if e = 0x0FFFFFF7 then .bad
  else .eoc e

/-- The mounted volume, viewed through the read path: geometry from the
EBPB plus the contents of every logical sector.  `sectorData n` is the
byte list the cache holds for logical sector `n` once fetched (the cache
layer itself, with its at-most-one device read per sector, is modelled
separately below; this pure view is justified by that development). -/
structure VFatM where
  bytesPerSector : Nat
  sectorsPerCluster : Nat
  sectorsPerFat : Nat
  fatStartSector : Nat
  dataStartSector : Nat
  sectorData : Nat → List Nat

/-- Well-formedness of the mounted volume: positive geometry, and every
cached logical sector holds exactly `bytes_per_sector` bytes (the cache
always allocates buffers of that size). -/
structure VFatWF (v : VFatM) : Prop where
  bps_pos : 0 < v.bytesPerSector
  spc_pos : 0 < v.sectorsPerCluster
  sector_len : ∀ n, (v.sectorData n).length = v.bytesPerSector

/-- Little-endian 32-bit read at byte offset `off` of a sector. -/
def readU32LE (bs : List Nat) (off : Nat) : Nat :=
  bs.getD off 0 + 256 * bs.getD (off + 1) 0 +
    65536 * bs.getD (off + 2) 0 + 16777216 * bs.getD (off + 3) 0

/-- `VFat::fat_entry` (vfat.rs lines 91-103): locate the 4-byte FAT cell of
`cluster` inside the FAT region; out-of-bounds clusters give `NotFound`. -/
def fatEntry (v : VFatM) (cluster : Nat) : RRes Nat :=
  let fatOffset := 4 * cluster
  let sectorOffset := fatOffset / v.bytesPerSector
  let fatOffset2 := fatOffset % v.bytesPerSector
  if sectorOffset ≥ v.sectorsPerFat then .err .notFound
  else .ok (readU32LE (v.sectorData (v.fatStartSector + sectorOffset)) fatOffset2)

/-- State of `ClusterIter` (cluster.rs lines 34-38). -/
structure ClusterIterState where
  current : Nat
  eocOccurred : Bool
deriving DecidableEq, Repr

/-- `ClusterIter::next` (cluster.rs lines 53-73): returns the yielded item
(`none` when the iterator is exhausted) and the successor state. -/
def clusterIterNext (v : VFatM) (s : ClusterIterState) :
    Option (RRes Nat) × ClusterIterState :=
  if s.eocOccurred then (none, s)
  else
    match fatEntry v s.current with
    | .err e => (some (.err e), s)
    | .ok entry =>
      match fatStatus entry with
      | .data next => (some (.ok s.current), { s with current := next })
      | .eoc _ => (some (.ok s.current), { s with eocOccurred := true })
      | _ => (some (.err .invalidData), s)

/-- `Iterator::skip(n)` applied to a `ClusterIter`: the first `n` items are
drawn from the iterator and discarded (errors included), leaving this
state. -/
def iterSkip (v : VFatM) (s : ClusterIterState) : Nat → ClusterIterState
  | 0 => s
  | n + 1 => iterSkip v (clusterIterNext v s).2 n

/- ## Directory decoding (src/fat32/src/vfat/dir.rs) -/

/-- Little-endian 16-bit read at byte offset `off`. -/
def readU16LE (bs : List Nat) (off : Nat) : Nat :=
  bs.getD off 0 + 256 * bs.getD (off + 1) 0

/-- `cnt` consecutive little-endian 16-bit words starting at byte `off`. -/
def readU16s (bs : List Nat) (off cnt : Nat) : List Nat :=
  (List.range cnt).map (fun i => readU16LE bs (off + 2 * i))

/-- dir.rs `VFatRegularDirEntry`, decoded from its 32 packed bytes. -/
structure VFatRegularDirEntryM where
  name : List Nat
  extension : List Nat
  attr : Nat
  create_time : Nat
  create_date : Nat
  last_access_date : Nat
  first_cluster_high : Nat
  last_modification_time : Nat
  last_modification_date : Nat
  first_cluster_low : Nat
  size : Nat
deriving DecidableEq, Repr

/-- dir.rs `VFatLfnDirEntry`, decoded from its 32 packed bytes. -/
structure VFatLfnDirEntryM where
  seq_number : Nat
  name1 : List Nat
  checksum : Nat
  name2 : List Nat
  name3 : List Nat
deriving DecidableEq, Repr

/-- dir.rs `VFatDirEntrySafe`. -/
inductive VFatDirEntrySafeM where
  | regular (r : VFatRegularDirEntryM)
  | lfn (l : VFatLfnDirEntryM)
  | deleted
  | endOfDir
deriving DecidableEq, Repr

/-- Field extraction for a regular entry: byte offsets follow the packed
struct layout (name 0-7, ext 8-10, attr 11, times and dates 14-25, cluster
halves at 20 and 26, size at 28). -/
def decodeRegular (bs : List Nat) : VFatRegularDirEntryM :=
  { name := (List.range 8).map (fun i => bs.getD i 0)
    extension := (List.range 3).map (fun i => bs.getD (8 + i) 0)
    attr := bs.getD 11 0
    create_time := readU16LE bs 14
    create_date := readU16LE bs 16
    last_access_date := readU16LE bs 18
    first_cluster_high := readU16LE bs 20
    last_modification_time := readU16LE bs 22
    last_modification_date := readU16LE bs 24
    first_cluster_low := readU16LE bs 26
    size := readU32LE bs 28 }

/-- Field extraction for an LFN entry: seq at 0, 5 + 6 + 2 UTF-16 words at
offsets 1, 14 and 28, checksum at 13. -/
def decodeLfn (bs : List Nat) : VFatLfnDirEntryM :=
  { seq_number := bs.getD 0 0
    name1 := readU16s bs 1 5
    checksum := bs.getD 13 0
    name2 := readU16s bs 14 6
    name3 := readU16s bs 28 2 }

/-- `Attributes::has_flag`: nonzero bitwise and. -/
def hasFlag (attr flag : Nat) : Bool :=
  Nat.land attr flag ≠ 0

/-- `parse_dir_entry` (dir.rs lines 79-89): attribute byte 0x0F means LFN,
else first byte 0xE5 deleted, else first byte 0x00 end, else regular. -/
def parseDirEntry (bs : List Nat) : VFatDirEntrySafeM :=
  if bs.getD 11 0 = 0x0F then .lfn (decodeLfn bs)
  else if bs.getD 0 0 = 0xE5 then .deleted
  else if bs.getD 0 0 = 0x00 then .endOfDir
  else .regular (decodeRegular bs)

/-- `char::decode_utf16` with `unwrap_or(REPLACEMENT_CHARACTER)` (dir.rs
lines 108-112): surrogate pairs combine; an unpaired surrogate becomes
U+FFFD without consuming the following unit. -/
def decodeUtf16 : List Nat → List Nat
  | [] => []
  | [u] =>
    if (0xD800 ≤ u ∧ u ≤ 0xDBFF) ∨ (0xDC00 ≤ u ∧ u ≤ 0xDFFF) then [0xFFFD]
    else [u]
  | u :: v :: rest2 =>
    if 0xD800 ≤ u ∧ u ≤ 0xDBFF then
      if 0xDC00 ≤ v ∧ v ≤ 0xDFFF then
        (0x10000 + (u - 0xD800) * 0x400 + (v - 0xDC00)) :: decodeUtf16 rest2
      else 0xFFFD :: decodeUtf16 (v :: rest2)
    else if 0xDC00 ≤ u ∧ u ≤ 0xDFFF then 0xFFFD :: decodeUtf16 (v :: rest2)
    else u :: decodeUtf16 (v :: rest2)

/-- The code points Rust `str::trim` strips (the Unicode White_Space set). -/
def isRustWhitespace (c : Nat) : Bool :=
  c = 0x09 || c = 0x0A || c = 0x0B || c = 0x0C || c = 0x0D || c = 0x20 ||
  c = 0x85 || c = 0xA0 || c = 0x1680 ||
  (0x2000 ≤ c && c ≤ 0x200A) ||
  c = 0x2028 || c = 0x2029 || c = 0x202F || c = 0x205F || c = 0x3000

/-- Rust `str::trim` over a list of code points. -/
def rustTrim (l : List Nat) : List Nat :=
  ((l.dropWhile isRustWhitespace).reverse.dropWhile isRustWhitespace).reverse

/-- `decode_file_name_utf16` (dir.rs lines 108-112): keep UTF-16 units up
to the first `0x00` or `0xFF` (the u16 value 255, as written in the
source), then decode with replacement. -/
def decodeFileNameUtf16 (name : List Nat) : List Nat :=
  decodeUtf16 (name.takeWhile (fun x => !(x == 0x00) && !(x == 0xFF)))

/-- `decode_file_name_utf8_ascii` (dir.rs lines 95-103): bytes up to the
first `0x00` or `0x20`, taken verbatim as code points. -/
def decodeFileNameAscii (name : List Nat) : List Nat :=
  name.takeWhile (fun x => !(x == 0x00) && !(x == 0x20))

/-- The comparator of `LfnList::decode`: ascending sequence number.  The
source uses the (stable) `slice::sort_by`; `List.insertionSort` with a
total preorder is the same stable sort. -/
def lfnLe (a b : Nat × List Nat) : Prop :=
  a.1 ≤ b.1

instance : DecidableRel lfnLe :=
  fun a b => Nat.decLe a.1 b.1

instance : IsTotal (Nat × List Nat) lfnLe :=
  ⟨fun a b => Nat.le_total a.1 b.1⟩

instance : IsTrans (Nat × List Nat) lfnLe :=
  ⟨fun _ _ _ h1 h2 => Nat.le_trans h1 h2⟩

/-- `LfnList::push` (dir.rs lines 169-176): mask the sequence number to its
low four bits and flatten the 5 + 6 + 2 name words into 13 units. -/
def lfnPush (acc : List (Nat × List Nat)) (l : VFatLfnDirEntryM) : List (Nat × List Nat) :=
  acc ++ [(l.seq_number % 16, l.name1 ++ l.name2 ++ l.name3)]

/-- `LfnList::decode` (dir.rs lines 189-198): stable-sort the recorded
pieces by sequence number, flatten, decode as a long file name, trim. -/
def lfnAssemble (acc : List (Nat × List Nat)) : List Nat :=
  rustTrim (decodeFileNameUtf16
    ((List.insertionSort lfnLe acc).flatMap Prod.snd))

/-- In-memory `Entry` (entry.rs): tagged file or directory. -/
inductive EntryM where
  | file (f : FileM)
  | dir (d : DirM)
deriving DecidableEq, Repr

/-- `DirIter::parse_regular_dir` (dir.rs lines 209-261): decode the name
(from the LFN accumulator when non-empty, else the 8.3 short name), build
the first cluster from the two 16-bit halves with the top four bits masked,
and emit a directory or a file according to the DIRECTORY attribute bit. -/
def parseRegularDir (lfnAcc : List (Nat × List Nat)) (r : VFatRegularDirEntryM) : EntryM :=
  let name :=
    if lfnAcc.isEmpty then
      let base := decodeFileNameAscii r.name
      if r.extension.getD 0 0 ≠ 0x00 ∧ r.extension.getD 0 0 ≠ 0x20 then
        base ++ [0x2E] ++ decodeFileNameAscii r.extension
      else base
    else lfnAssemble lfnAcc
  let cluster := clusterFrom (r.first_cluster_high * 65536 + r.first_cluster_low)
  let metadata : MetadataM :=
    { isReadOnly := hasFlag r.attr 0x01
      isHidden := hasFlag r.attr 0x02
      createdDate := r.create_date
      createdTime := r.create_time
      accessedDate := r.last_access_date
      accessedTime := 0
      modifiedDate := r.last_modification_date
      modifiedTime := r.last_modification_time }
  if hasFlag r.attr 0x10 then
    .dir { cluster := cluster, name := name, metadata := metadata }
  else
    .file { cluster := cluster, name := name, metadata := metadata,
            size := r.size, offset := 0 }

/-- State of `DirIter` (dir.rs lines 201-206), minus the drive handle: the
chain buffer, the LFN accumulator and the byte position. -/
structure DirIterState where
  buf : List Nat
  lfnAcc : List (Nat × List Nat)
  pos : Nat
deriving DecidableEq, Repr

/-- `DirIter::next` (dir.rs lines 267-296).  Note the guard: iteration
stops as soon as `pos + 32 ≥ buf.length`, so a record occupying the final
32 bytes of the buffer is never parsed. -/
def dirIterNext (s : DirIterState) : Option EntryM × DirIterState :=
  if s.pos + 32 ≥ s.buf.length then (none, s)
  else
    let record := (s.buf.drop s.pos).take 32
    let s1 : DirIterState := { s with pos := s.pos + 32 }
    match parseDirEntry record with
    | .regular r => (some (parseRegularDir s1.lfnAcc r), { s1 with lfnAcc := [] })
    | .lfn l => dirIterNext { s1 with lfnAcc := lfnPush s1.lfnAcc l }
    | .endOfDir => (none, s1)
    | .deleted => dirIterNext { s1 with lfnAcc := [] }
termination_by s.buf.length - s.pos
decreasing_by all_goals { simp_wf; omega }

/- ## Cluster I/O (vfat.rs lines 53-87 and 106-191) -/

/-- `VFat::bytes_per_cluster`. -/
def bytesPerCluster (v : VFatM) : Nat :=
  v.bytesPerSector * v.sectorsPerCluster

/-- `VFat::cluster_to_sector`: `data_start + (cluster - 2) *
sectors_per_cluster`.  The subtraction is on u64 in the source; every
cluster reached through a valid chain is at least 2, where Nat subtraction
agrees. -/
def clusterToSector (v : VFatM) (cluster : Nat) : Nat :=
  v.dataStartSector + (cluster - 2) * v.sectorsPerCluster

/-- The loop of `VFat::_read_cluster` (vfat.rs lines 67-87): `remaining`
iterations left, `i` the current sector index inside the cluster.  Each
step copies one logical sector (the device seen through the cache has
sector size `bytes_per_sector`) into `buf` at `i * bytes_per_sector`,
clipped to the buffer, and stops early once the buffer is full. -/
def readClusterGo (v : VFatM) (startSector : Nat) :
    Nat → Nat → List Nat → Nat → List Nat × Nat
  | 0, _, buf, bytesRead => (buf, bytesRead)
  | r + 1, i, buf, bytesRead =>
    let curStart := i * v.bytesPerSector
    let curEnd := min buf.length (curStart + v.bytesPerSector)
    let n := curEnd - curStart
    let sec := (v.sectorData (startSector + i)).take n
    let buf2 := buf.take curStart ++ sec ++ buf.drop (curStart + sec.length)
    if curEnd = buf.length then (buf2, bytesRead + n)
    else readClusterGo v startSector r (i + 1) buf2 (bytesRead + n)

/-- `VFat::_read_cluster` applied to a fresh zeroed buffer of exactly
`bytes_per_cluster` bytes — the only way either caller invokes it
(`read_chain` resizes with zeros, `read_cluster` allocates
`vec![0; cluster_bytes]`). -/
def readFullCluster (v : VFatM) (cluster : Nat) : List Nat :=
  (readClusterGo v (clusterToSector v cluster) v.sectorsPerCluster 0
    (List.replicate (bytesPerCluster v) 0) 0).1

/-- The loop of `read_chain` (vfat.rs lines 128-144): one fuel unit per
iterator item; every yielded cluster appends a full cluster of bytes. -/
def readChainGo (v : VFatM) : Nat → ClusterIterState → List Nat →
    Option (RRes (List Nat))
  | 0, _, _ => none
  | fuel + 1, st, buf =>
    match clusterIterNext v st with
    | (none, _) => some (.ok buf)
    | (some (.err e), _) => some (.err e)
    | (some (.ok c), st2) => readChainGo v fuel st2 (buf ++ readFullCluster v c)

/-- `read_chain(start, buf)`: clears the buffer and appends every cluster
of the chain.  The source returns `Ok(buf.len())` with the bytes in the
caller buffer; the model returns the bytes. -/
def readChain (v : VFatM) (fuel : Nat) (start : Nat) : Option (RRes (List Nat)) :=
  readChainGo v fuel { current := start, eocOccurred := false } []

/-- The loop of `read_cluster` (vfat.rs lines 165-188).  The for loop first
draws an item; a drawn item is discarded unread when the buffer is already
full; an error item aborts; a cluster item copies
`cluster_buf[cur_offset ..]` into the buffer, clipped to the buffer end,
after which the intra-cluster offset is zero. -/
def readClusterChainGo (v : VFatM) : Nat → ClusterIterState → List Nat →
    Nat → Nat → Option (RRes (List Nat × Nat))
  | 0, _, _, _, _ => none
  | fuel + 1, st, buf, curBufPos, curOffset =>
    match clusterIterNext v st with
    | (none, _) => some (.ok (buf, curBufPos))
    | (some item, st2) =>
      if curBufPos ≥ buf.length then some (.ok (buf, curBufPos))
      else
        match item with
        | .err e => some (.err e)
        | .ok c =>
          let clusterBuf := readFullCluster v c
          let curBufEnd := min buf.length (curBufPos + bytesPerCluster v - curOffset)
          let curReadLen := curBufEnd - curBufPos
          let sl := (clusterBuf.drop curOffset).take curReadLen
          let buf2 := buf.take curBufPos ++ sl ++ buf.drop (curBufPos + sl.length)
          readClusterChainGo v fuel st2 buf2 curBufEnd 0

/-- `read_cluster(cluster, offset, buf)` (vfat.rs lines 146-190) on a
zeroed caller buffer of `bufLen` bytes: whole clusters covered by `offset`
are skipped through the iterator, the remainder of `offset` applies inside
the first processed cluster.  Returns the buffer and the copied count. -/
def readCluster (v : VFatM) (fuel : Nat) (cluster offset bufLen : Nat) :
    Option (RRes (List Nat × Nat)) :=
  let clusterBytes := bytesPerCluster v
  let skipClusters := offset / clusterBytes
  let curOffset := offset % clusterBytes
  readClusterChainGo v fuel
    (iterSkip v { current := cluster, eocOccurred := false } skipClusters)
    (List.replicate bufLen 0) 0 curOffset

/- ## File read and seek (src/fat32/src/vfat/file.rs) -/

/-- Reinterpret a u64 bit pattern as i64 (`as i64`). -/
def i64OfU64 (n : Nat) : Int :=
  if n < 2 ^ 63 then (n : Int) else (n : Int) - 2 ^ 64

/-- Wrap an integer into the i64 range (release-mode i64 arithmetic). -/
def wrapI64 (x : Int) : Int :=
  (x + 2 ^ 63) % 2 ^ 64 - 2 ^ 63

/-- Reinterpret an i64 value as u64 (`as u64`). -/
def u64OfI64 (x : Int) : Nat :=
  (x % 2 ^ 64).toNat

/-- std::io::SeekFrom.  `fromEnd` is `SeekFrom::End`. -/
inductive SeekFromM where
  | start (p : Nat)
  | current (p : Int)
  | fromEnd (p : Int)
deriving DecidableEq, Repr

/-- `File::set_offset` (file.rs lines 18-25): reject positions beyond the
file size, otherwise store and return the new offset.  The pair is the
returned result together with the file after the call. -/
def setOffset (f : FileM) (pos : Nat) : RRes Nat × FileM :=
  if pos > f.size then (.err .invalidInput, f)
  else (.ok pos, { f with offset := pos })

/-- `io::Seek::seek` for `File` (file.rs lines 52-60).  `Current` and `End`
resolve through i64 arithmetic and an `as u64` cast; `End(p)` computes
`size - 1 + p`. -/
def fileSeek (f : FileM) (pos : SeekFromM) : RRes Nat × FileM :=
  match pos with
  | .start p => setOffset f p
  | .current p => setOffset f (u64OfI64 (wrapI64 (i64OfU64 f.offset + p)))
  | .fromEnd p => setOffset f (u64OfI64 (wrapI64 (wrapI64 (i64OfU64 f.size - 1) + p)))

/-- `io::Read::read` for `File` (file.rs lines 63-70): clamp to
`min(size - offset, buf.len())`, delegate to `read_cluster` at the current
offset, then advance the offset with `seek(Current(read_bytes))`.  Returns
the bytes placed in the caller buffer prefix and the file after the call;
`none` is fuel exhaustion inside `read_cluster`. -/
def fileRead (v : VFatM) (fuel : Nat) (f : FileM) (bufLen : Nat) :
    Option (RRes (List Nat) × FileM) :=
  let maxLen := min (f.size - f.offset) bufLen
  match readCluster v fuel f.cluster f.offset maxLen with
  | none => none
  | some (.err e) => some (.err e, f)
  | some (.ok (buf, n)) =>
    match fileSeek f (.current (n : Int)) with
    | (.err e, f2) => some (.err e, f2)
    | (.ok _, f2) => some (.ok (buf.take n), f2)

/- ## The sector cache (src/fat32/src/vfat/cache.rs) -/

/-- The immutable part of a `CachedDevice`: the backing block device
(physical sector size and, per physical sector, its bytes or `none` for an
I/O failure there) and the partition descriptor. -/
structure CacheCfg where
  deviceSectorSize : Nat
  deviceData : Nat → Option (List Nat)
  partitionStart : Nat
  partitionSectorSize : Nat

/-- cache.rs `CacheEntry`. -/
structure CacheEntryM where
  data : List Nat
  dirty : Bool
deriving DecidableEq, Repr

/-- The mutable cache: an association from logical sector to entry
(`HashMap<u64, CacheEntry>`). -/
def CacheMap : Type :=
  List (Nat × CacheEntryM)

/-- `CachedDevice::virtual_to_physical` (cache.rs lines 60-72): the
physical sector backing logical sector `virt` and how many physical
sectors make it up. -/
def virtualToPhysical (cfg : CacheCfg) (virt : Nat) : Nat × Nat :=
  if cfg.deviceSectorSize = cfg.partitionSectorSize then (virt, 1)
  else if virt < cfg.partitionStart then (virt, 1)
  else
    let factor := cfg.partitionSectorSize / cfg.deviceSectorSize
    (cfg.partitionStart + (virt - cfg.partitionStart) * factor, factor)

/-- The read loop of `ensure_cache`: `remaining` physical sectors left,
`i` the next index; each device read fills
`buf[i * device_sector_size ..]`. -/
def fetchGo (cfg : CacheCfg) (p : Nat) : Nat → Nat → List Nat → Option (List Nat)
  | 0, _, buf => some buf
  | r + 1, i, buf =>
    match cfg.deviceData (p + i) with
    | none => none
    | some bs =>
      let start := i * cfg.deviceSectorSize
      let sec := bs.take cfg.deviceSectorSize
      fetchGo cfg p r (i + 1) (buf.take start ++ sec ++ buf.drop (start + sec.length))

/-- The bytes `ensure_cache` loads for logical sector `virt`: a zeroed
buffer of one logical sector, filled by the physical reads.  `none` means
some device read failed. -/
def fetchSector (cfg : CacheCfg) (virt : Nat) : Option (List Nat) :=
  let pn := virtualToPhysical cfg virt
  fetchGo cfg pn.1 pn.2 0 (List.replicate cfg.partitionSectorSize 0)

/-- `CachedDevice::ensure_cache` (cache.rs lines 75-90): a hit leaves the
cache alone and touches no device sector; a miss reads the backing
physical sectors and inserts the entry (not dirty).  The third component
records which logical sector was fetched from the device by this call. -/
def ensureCache (cfg : CacheCfg) (st : CacheMap) (sector : Nat) :
    Outcome Unit × CacheMap × List Nat :=
  match st.lookup sector with
  | some _ => (.ok (), st, [])
  | none =>
    match fetchSector cfg sector with
    | none => (.err .ioError, st, [sector])
    | some buf => (.ok (), (sector, { data := buf, dirty := false }) :: st, [sector])

/-- `CachedDevice::get` (cache.rs lines 113-116): ensure, then return the
cached bytes; the `unwrap` cannot fail after a successful ensure. -/
def cachedGet (cfg : CacheCfg) (st : CacheMap) (sector : Nat) :
    Outcome (List Nat) × CacheMap × List Nat :=
  match ensureCache cfg st sector with
  | (.err e, st2, ev) => (.err e, st2, ev)
  | (.panicked m, st2, ev) => (.panicked m, st2, ev)
  | (.ok _, st2, ev) =>
    match st2.lookup sector with
    | some entry => (.ok entry.data, st2, ev)
    | none => (.panicked "called Option::unwrap() on a None value", st2, ev)

/-- `CachedDevice::get_mut` (cache.rs lines 102-105): identical cache and
device behaviour to `get` (this implementation does not mark the entry
dirty). -/
def cachedGetMut (cfg : CacheCfg) (st : CacheMap) (sector : Nat) :
    Outcome (List Nat) × CacheMap × List Nat :=
  cachedGet cfg st sector

/-- `BlockDevice::read_sector` for `CachedDevice` (cache.rs lines
126-131): copy `min(buf.len(), logical_sector_size)` cached bytes. -/
def cachedReadSector (cfg : CacheCfg) (st : CacheMap) (sector bufLen : Nat) :
    Outcome (List Nat × Nat) × CacheMap × List Nat :=
  let len := min bufLen cfg.partitionSectorSize
  match cachedGet cfg st sector with
  | (.ok d, st2, ev) => (.ok (d.take len, len), st2, ev)
  | (.err e, st2, ev) => (.err e, st2, ev)
  | (.panicked m, st2, ev) => (.panicked m, st2, ev)

/-- One access to the cache: the three public operations. -/
inductive CacheOp where
  | get (n : Nat)
  | getMut (n : Nat)
  | readSector (n : Nat) (bufLen : Nat)
deriving DecidableEq, Repr

/-- The logical sector an operation touches. -/
def CacheOp.sector : CacheOp → Nat
  | .get n => n
  | .getMut n => n
  | .readSector n _ => n

/-- Run one access, keeping the cache state and the device-fetch events. -/
def cacheStep (cfg : CacheCfg) (st : CacheMap) : CacheOp → CacheMap × List Nat
  | .get n => ((cachedGet cfg st n).2.1, (cachedGet cfg st n).2.2)
  | .getMut n => ((cachedGetMut cfg st n).2.1, (cachedGetMut cfg st n).2.2)
  | .readSector n bufLen =>
    ((cachedReadSector cfg st n bufLen).2.1, (cachedReadSector cfg st n bufLen).2.2)

/-- Run a sequence of accesses, concatenating the fetch events. -/
def cacheRun (cfg : CacheCfg) : List CacheOp → CacheMap → CacheMap × List Nat
  | [], st => (st, [])
  | op :: rest, st =>
    let s1 := cacheStep cfg st op
    let s2 := cacheRun cfg rest s1.1
    (s2.1, s1.2 ++ s2.2)

/- ## Chains, and concrete volumes used in the theorems below -/

/-- A well-formed FAT chain: the list of clusters the FAT links from a
starting cluster up to and including the cluster whose entry is
end-of-chain.  Every member is a data cluster number (at least 2). -/
inductive ChainM (v : VFatM) : Nat → List Nat → Prop
  | last (c x w : Nat) : 2 ≤ c → fatEntry v c = .ok x → fatStatus x = .eoc w →
      ChainM v c [c]
  | step (c x c2 : Nat) (cs : List Nat) : 2 ≤ c → fatEntry v c = .ok x →
      fatStatus x = .data c2 → ChainM v c2 cs → ChainM v c (c :: cs)

/-- The bytes of a whole chain: each cluster contributes a full cluster. -/
def chainBytes (v : VFatM) (cs : List Nat) : List Nat :=
  cs.flatMap (readFullCluster v)

/-- All-zero metadata (`Timestamp::empty`), used for constructed files. -/
def mdEmpty : MetadataM :=
  { isReadOnly := false, isHidden := false, createdDate := 0, createdTime := 0,
    accessedDate := 0, accessedTime := 0, modifiedDate := 0, modifiedTime := 0 }

/-- An MBR whose only FAT32 partition has type 0x0B: valid signature,
bootable first partition of type 0x0B, three empty slots. -/
def mbr0B : MasterBootRecordM :=
  { partitions :=
      [ { bootable := 0x80, partition_type := 0x0B, relative_sector := 2048, len := 1000 },
        { bootable := 0, partition_type := 0, relative_sector := 0, len := 0 },
        { bootable := 0, partition_type := 0, relative_sector := 0, len := 0 },
        { bootable := 0, partition_type := 0, relative_sector := 0, len := 0 } ],
    signature := 0xAA55 }

/-- A tiny volume on which reading the FAT entry of cluster 128 fails: one
FAT sector of 512 bytes, so the entry of cluster 128 (byte offset 512)
lies outside the FAT. -/
def v0 : VFatM :=
  { bytesPerSector := 512, sectorsPerCluster := 1, sectorsPerFat := 1,
    fatStartSector := 0, dataStartSector := 2,
    sectorData := fun _ => List.replicate 512 0 }

/-- Iterator state positioned on cluster 128 of `v0`. -/
def s128 : ClusterIterState :=
  { current := 128, eocOccurred := false }

/-- The long-name assembly exactly as the claim words it: truncation at the
first UTF-16 unit equal to 0x0000 or 0xFFFF (everything else as in
`lfnAssemble`). -/
def lfnAssembleSpecFFFF (acc : List (Nat × List Nat)) : List Nat :=
  rustTrim (decodeUtf16
    (((List.insertionSort lfnLe acc).flatMap Prod.snd).takeWhile
      (fun x => !(x == 0x0000) && !(x == 0xFFFF))))

/-- The long-name assembly with the truncation the source actually
performs, spelled from the amended claim: stable-sort ascending by
sequence number, flatten, truncate at the first unit equal to 0x0000 or
0x00FF, decode with U+FFFD replacement, trim. -/
def lfnAssembleAmendedSpec (acc : List (Nat × List Nat)) : List Nat :=
  rustTrim (decodeUtf16
    (((List.insertionSort lfnLe acc).flatMap Prod.snd).takeWhile
      (fun x => !(x == 0x0000) && !(x == 0x00FF))))

/-- A single LFN piece whose payload is the letter A followed by the
0xFFFF padding FAT32 uses for unused name cells. -/
def lfnPieceFFFF : Nat × List Nat :=
  (1, [0x41, 0xFFFF, 0, 0, 0, 0, 0, 0, 0, 0, 0, 0, 0])

/-- True exactly on `regular` parses. -/
def isRegularEntry : VFatDirEntrySafeM → Bool
  | .regular _ => true
  | _ => false

/-- A 32-byte directory buffer holding exactly one regular record: short
name HELLO, blank extension, ARCHIVE attribute, first cluster 5, size
123. -/
def buf32 : List Nat :=
  [0x48, 0x45, 0x4C, 0x4C, 0x4F, 0x20, 0x20, 0x20,
   0x20, 0x20, 0x20,
   0x20,
   0, 0, 0, 0, 0, 0, 0, 0, 0, 0, 0, 0, 0, 0,
   5, 0,
   123, 0, 0, 0]

/-- Sector contents of the volume for the 1500-byte-file scenario: sector 2
is the FAT sector holding the chain 10 → 11 → EOC; every other sector
holds the pattern `(s + i) % 256`. -/
def v6sector (s : Nat) : List Nat :=
  if s = 2 then
    (List.range 512).map (fun i =>
      if i = 40 then 11
      else if i = 44 then 0xF8
      else if i = 45 then 0xFF
      else if i = 46 then 0xFF
      else if i = 47 then 0x0F
      else 0)
  else (List.range 512).map (fun i => (s + i) % 256)

/-- The scenario volume: 512-byte sectors, 8 sectors per cluster (4096-byte
clusters), FAT at sector 2, data at sector 100.  Cluster 10 occupies
sectors 164-171, cluster 11 sectors 172-179. -/
def v6 : VFatM :=
  { bytesPerSector := 512, sectorsPerCluster := 8, sectorsPerFat := 1,
    fatStartSector := 2, dataStartSector := 100, sectorData := v6sector }

/-- The 1500-byte file starting at cluster 10, offset 0. -/
def file6 : FileM :=
  { cluster := 10, name := [], metadata := mdEmpty, size := 1500, offset := 0 }

/-- The first 1500 bytes of the chain 10 → 11: the whole file content. -/
def c6SourceBytes : List Nat :=
  ((List.range 16).flatMap (fun i => v6sector (164 + i))).take 1500

/-- `file6` after its offset advanced to 1500 (end of file). -/
def c6FileAfter : FileM :=
  { file6 with offset := 1500 }

/-- A 1500-byte file for the seek scenario. -/
def file1500 : FileM :=
  { cluster := 10, name := [], metadata := mdEmpty, size := 1500, offset := 0 }

/-- Sector contents of a miniature two-cluster volume (8-byte sectors, one
sector per cluster): FAT sector 5 links cluster 2 → 3 → EOC; data sectors
hold the pattern `(s * 8 + i) % 256`. -/
def v8sector (s : Nat) : List Nat :=
  if s = 5 then [3, 0, 0, 0, 0xF8, 0xFF, 0xFF, 0x0F]
  else (List.range 8).map (fun i => (s * 8 + i) % 256)

/-- The miniature volume: cluster 2 at sector 10, cluster 3 at sector 11. -/
def v8 : VFatM :=
  { bytesPerSector := 8, sectorsPerCluster := 1, sectorsPerFat := 2,
    fatStartSector := 4, dataStartSector := 10, sectorData := v8sector }

/-- A concrete cache configuration: 2-byte physical sectors, 4-byte logical
sectors, partition starting at physical sector 1, every device read
succeeding with the pattern `[p % 256, (p + 7) % 256]`. -/
def cfg9 : CacheCfg :=
  { deviceSectorSize := 2, deviceData := fun p => some [p % 256, (p + 7) % 256],
    partitionStart := 1, partitionSectorSize := 4 }

/-- LFN piece with sequence number 1: the UTF-16 units of VERY_ padded
with zeros. -/
def lfnP1 : Nat × List Nat :=
  (1, [0x56, 0x45, 0x52, 0x59, 0x5F, 0, 0, 0, 0, 0, 0, 0, 0])

/-- LFN piece with sequence number 2: the UTF-16 units of LONG padded
with zeros. -/
def lfnP2 : Nat × List Nat :=
  (2, [0x4C, 0x4F, 0x4E, 0x47, 0, 0, 0, 0, 0, 0, 0, 0, 0])

/- ## Theorems -/

/-- C1: at mount, the partition search of `VFat::from` never matches a
partition of type 0x0B: on a validly signed MBR whose first partition has
type 0x0B (a FAT32 partition by the claim, the spec and the comment in
mbr.rs), the search comes back empty, so the mount fails with NotFound
instead of selecting that partition. -/
theorem c1_partition_search_misses_0x0B :
    mbrValidate mbr0B = .ok mbr0B ∧
    (mbr0B.partitions.find?
      (fun p => p.partition_type == 0x0B || p.partition_type == 0x0C)).isSome = true ∧
    vfatPartitionSearch mbr0B = none := by
  decide

/-- C2 counterexample: no mutation operation returns an Unsupported error
at these concrete inputs (each panics instead), refuting the claim that
every mutation operation returns a consistent Unsupported error. -/
theorem c2_mutation_not_unsupported_error :
    createFileM "/a" ≠ Outcome.err IOEK.unsupported ∧
    createDirM "/a" false ≠ Outcome.err IOEK.unsupported ∧
    renameM "/a" "/b" ≠ Outcome.err IOEK.unsupported ∧
    removeM "/a" false ≠ Outcome.err IOEK.unsupported ∧
    fileWriteM file1500 [0] ≠ Outcome.err IOEK.unsupported ∧
    fileFlushM file1500 ≠ Outcome.err IOEK.unsupported ∧
    fileSyncM file1500 ≠ Outcome.err IOEK.unsupported := by
  decide

/-- C2 amended: every mutation operation of the filesystem surface
unconditionally panics via `unimplemented!` (never raising an Unsupported
error and never returning), with the fixed message shown, for every
input. -/
theorem c2_mutation_always_panics : ∀ (p q : String) (b : Bool) (f : FileM) (buf : List Nat),
    createFileM p = .panicked "not implemented: read only file system" ∧
    createDirM p b = .panicked "not implemented: read only file system" ∧
    renameM p q = .panicked "not implemented: read only file system" ∧
    removeM p b = .panicked "not implemented: read only file system" ∧
    fileWriteM f buf = .panicked "not implemented" ∧
    fileFlushM f = .panicked "not implemented" ∧
    fileSyncM f = .panicked "not implemented" := by
  intro p q b f buf
  exact ⟨rfl, rfl, rfl, rfl, rfl, rfl, rfl⟩

/-- C3 counterexample: on `v0`, reading the FAT entry of cluster 128 fails
(the entry lies outside the one-sector FAT), the iterator yields that
error, and the very next call yields the same error again instead of
returning `none` — the claimed error latch does not exist. -/
theorem c3_error_not_latched :
    clusterIterNext v0 s128 = (some (.err .notFound), s128) ∧
    clusterIterNext v0 (clusterIterNext v0 s128).2 = (some (.err .notFound), s128) := by
  decide

/-- C3 amended: the iterator latches end-of-chain only.  After an Eoc
cluster is yielded the state is latched and every subsequent call returns
`none`; after an error is yielded the state is unchanged, so the next call
re-reads the FAT entry of the same cluster rather than returning
`none`. -/
theorem c3_eoc_latched_error_not :
    ∀ (v : VFatM) (s : ClusterIterState),
    (s.eocOccurred = true → clusterIterNext v s = (none, s)) ∧
    ((clusterIterNext v s).2.eocOccurred = true →
      clusterIterNext v (clusterIterNext v s).2 = (none, (clusterIterNext v s).2)) ∧
    (∀ e, (clusterIterNext v s).1 = some (.err e) → (clusterIterNext v s).2 = s) := by
  intro v s
  have latch : ∀ s2 : ClusterIterState, s2.eocOccurred = true →
      clusterIterNext v s2 = (none, s2) := by
    intro s2 h
    unfold clusterIterNext
    simp [h]
  refine ⟨latch s, latch _, ?_⟩
  intro e
  unfold clusterIterNext
  by_cases hE : s.eocOccurred
  · simp [hE]
  · simp only [hE]
    cases hf : fatEntry v s.current with
    | err e2 => simp
    | ok entry => cases hs : fatStatus entry <;> simp [hs]

/-- C3 witness: the amended theorem at concrete inputs — a latched state
stays exhausted, and the error-yielding state of the counterexample is
left unchanged by the call. -/
theorem c3_witness :
    clusterIterNext v0 { current := 5, eocOccurred := true } =
      (none, { current := 5, eocOccurred := true }) ∧
    (clusterIterNext v0 s128).2 = s128 :=
  ⟨(c3_eoc_latched_error_not v0 { current := 5, eocOccurred := true }).1 rfl,
   (c3_eoc_latched_error_not v0 s128).2.2 IOEK.notFound (by decide)⟩

/-- Two sorted lists of LFN pieces that are permutations of each other and
whose sequence numbers are pairwise distinct are equal. -/
theorem lfn_sorted_perm_eq :
    ∀ (l1 l2 : List (Nat × List Nat)), l1.Perm l2 →
    l1.Sorted lfnLe → l2.Sorted lfnLe → (l1.map Prod.fst).Nodup → l1 = l2 := by
  intro l1
  induction l1 with
  | nil =>
    intro l2 hp _ _ _
    exact (hp.symm.eq_nil).symm
  | cons a t1 ih =>
    intro l2 hp hs1 hs2 hnd
    cases l2 with
    | nil => exact absurd hp.eq_nil (by simp)
    | cons b t2 =>
      have hnd1 : (a.1 :: t1.map Prod.fst).Nodup := by
        rw [List.map_cons] at hnd
        exact hnd
      have hab : a = b := by
        have haIn : a ∈ b :: t2 := hp.subset (List.mem_cons_self a t1)
        have hbIn : b ∈ a :: t1 := hp.symm.subset (List.mem_cons_self b t2)
        rcases List.mem_cons.1 haIn with h1 | h1
        · exact h1
        rcases List.mem_cons.1 hbIn with h2 | h2
        · exact h2.symm
        have hab1 : lfnLe a b := (List.sorted_cons.1 hs1).1 b h2
        have hab2 : lfnLe b a := (List.sorted_cons.1 hs2).1 a h1
        have hkey : a.1 = b.1 := Nat.le_antisymm hab1 hab2
        have hmem : a.1 ∈ t1.map Prod.fst := by
          rw [hkey]
          exact List.mem_map_of_mem Prod.fst h2
        exact absurd hmem (List.nodup_cons.1 hnd1).1
      subst hab
      have htail : t1 = t2 :=
        ih t2 hp.cons_inv (List.sorted_cons.1 hs1).2 (List.sorted_cons.1 hs2).2
          (List.nodup_cons.1 hnd1).2
      rw [htail]

/-- C4 counterexample: one LFN piece whose payload is the letter A followed
by the 0xFFFF padding.  The claimed assembly truncates at 0xFFFF and gives
the name A; the source truncates only at the u16 value 0xFF, so the
assembled name keeps a spurious U+FFFF — the two disagree. -/
theorem c4_lfn_truncation_differs :
    lfnAssemble [lfnPieceFFFF] = [0x41, 0xFFFF] ∧
    lfnAssembleSpecFFFF [lfnPieceFFFF] = [0x41] ∧
    lfnAssemble [lfnPieceFFFF] ≠ lfnAssembleSpecFFFF [lfnPieceFFFF] := by
  decide

/-- C4 amended: committing a regular entry with LFN pieces pushed in any
interleaved order (pairwise-distinct sequence numbers) assembles the same
name, and that name is exactly: stable-sort the pieces ascending by
sequence number, flatten, decode as UTF-16 truncating at the first code
unit equal to 0x0000 or 0x00FF, replace undecodable code points with
U+FFFD, trim surrounding whitespace. -/
theorem c4_lfn_assembly_sorted (acc1 acc2 : List (Nat × List Nat))
    (hperm : acc1.Perm acc2) (hnd : (acc1.map Prod.fst).Nodup) :
    lfnAssemble acc1 = lfnAssemble acc2 ∧
    lfnAssemble acc1 = lfnAssembleAmendedSpec acc1 := by
  constructor
  · have hsortEq : List.insertionSort lfnLe acc1 = List.insertionSort lfnLe acc2 := by
      apply lfn_sorted_perm_eq
      · exact (List.perm_insertionSort lfnLe acc1).trans
          (hperm.trans (List.perm_insertionSort lfnLe acc2).symm)
      · exact List.sorted_insertionSort lfnLe acc1
      · exact List.sorted_insertionSort lfnLe acc2
      · exact (((List.perm_insertionSort lfnLe acc1).map Prod.fst).nodup_iff).2 hnd
    unfold lfnAssemble
    rw [hsortEq]
  · rfl

/-- C4 witness: the amended theorem on the two orders of the concrete
VERY_ / LONG pieces. -/
theorem c4_witness :
    lfnAssemble [lfnP2, lfnP1] = lfnAssemble [lfnP1, lfnP2] ∧
    lfnAssemble [lfnP2, lfnP1] = lfnAssembleAmendedSpec [lfnP2, lfnP1] :=
  c4_lfn_assembly_sorted [lfnP2, lfnP1] [lfnP1, lfnP2] (by decide) (by decide)

/-- The stop guard of `DirIter::next`: whenever `pos + 32 ≥ buf.length` the
iterator returns `none` without parsing anything. -/
theorem dirIterNext_stop (s : DirIterState) (h : s.pos + 32 ≥ s.buf.length) :
    dirIterNext s = (none, s) := by
  unfold dirIterNext
  simp [h]

/-- C5: a chain buffer of exactly 32 bytes holding one regular record.  The
record is classified Regular and precedes any end-of-directory record, yet
`DirIter::next` returns `none` immediately (its guard is `pos + 32 ≥ len`,
not `>`), so the final record of a buffer is never yielded. -/
theorem c5_final_regular_record_not_yielded :
    isRegularEntry (parseDirEntry buf32) = true ∧
    buf32.length = 32 ∧
    dirIterNext { buf := buf32, lfnAcc := [], pos := 0 } =
      (none, { buf := buf32, lfnAcc := [], pos := 0 }) :=
  ⟨by decide, by decide, dirIterNext_stop _ (by decide)⟩

/-- Length of the concatenation of consecutive sectors. -/
theorem flatMap_range'_sectorData_length (v : VFatM) (hwf : VFatWF v) :
    ∀ (n s : Nat), ((List.range' s n).flatMap v.sectorData).length =
      n * v.bytesPerSector := by
  intro n
  induction n with
  | zero => intro s; simp
  | succ m ih =>
    intro s
    rw [List.range'_succ, List.flatMap_cons, List.length_append, hwf.sector_len, ih]
    ring

/-- Characterization of the `_read_cluster` loop on a buffer of exactly the
remaining sectors: it overwrites the tail of the buffer from position
`i * bytes_per_sector` with the next `r` consecutive sectors. -/
theorem readClusterGo_spec (v : VFatM) (hwf : VFatWF v) (ss : Nat) :
    ∀ (r i : Nat) (buf : List Nat) (br : Nat), 0 < r →
    buf.length = (i + r) * v.bytesPerSector →
    readClusterGo v ss r i buf br =
      (buf.take (i * v.bytesPerSector) ++ (List.range' (ss + i) r).flatMap v.sectorData,
       br + r * v.bytesPerSector) := by
  intro r
  induction r with
  | zero => intro i buf br h _; omega
  | succ r2 ih =>
    intro i buf br _ hlen
    have hbps := hwf.bps_pos
    have hsecLen : (v.sectorData (ss + i)).length = v.bytesPerSector := hwf.sector_len _
    have hlen2 : buf.length =
        i * v.bytesPerSector + v.bytesPerSector + r2 * v.bytesPerSector := by
      rw [hlen]; ring
    simp only [readClusterGo]
    have hEnd : min buf.length (i * v.bytesPerSector + v.bytesPerSector) =
        i * v.bytesPerSector + v.bytesPerSector := by omega
    rw [hEnd]
    have hsub : i * v.bytesPerSector + v.bytesPerSector - i * v.bytesPerSector =
        v.bytesPerSector := by omega
    rw [hsub, List.take_of_length_le (le_of_eq hsecLen), hsecLen]
    by_cases hdone : i * v.bytesPerSector + v.bytesPerSector = buf.length
    · rw [if_pos hdone]
      have hr2 : r2 = 0 := by
        have h0 : r2 * v.bytesPerSector = 0 := by omega
        rcases Nat.mul_eq_zero.1 h0 with h | h
        · exact h
        · omega
      subst hr2
      have hdrop : buf.drop (i * v.bytesPerSector + v.bytesPerSector) = [] :=
        List.drop_eq_nil_of_le (by omega)
      rw [hdrop, List.range'_succ]
      simp
    · rw [if_neg hdone]
      have hr2pos : 0 < r2 := by
        rcases Nat.eq_zero_or_pos r2 with h0 | h0
        · subst h0; simp at hlen2; omega
        · exact h0
      have hbuf2len : (buf.take (i * v.bytesPerSector) ++ v.sectorData (ss + i) ++
          buf.drop (i * v.bytesPerSector + v.bytesPerSector)).length =
          (i + 1 + r2) * v.bytesPerSector := by
        rw [List.length_append, List.length_append, List.length_take, List.length_drop,
          hsecLen]
        have hmul : (i + 1 + r2) * v.bytesPerSector =
            i * v.bytesPerSector + v.bytesPerSector + r2 * v.bytesPerSector := by ring
        omega
      rw [ih (i + 1) _ (br + v.bytesPerSector) hr2pos hbuf2len, Prod.mk.injEq]
      have hlt : (buf.take (i * v.bytesPerSector)).length = i * v.bytesPerSector := by
        rw [List.length_take]; omega
      refine ⟨?_, ?_⟩
      · have hl12 : (buf.take (i * v.bytesPerSector) ++ v.sectorData (ss + i)).length =
            (i + 1) * v.bytesPerSector := by
          rw [List.length_append, hlt, hsecLen]; ring
        have htk : (buf.take (i * v.bytesPerSector) ++ v.sectorData (ss + i) ++
            buf.drop (i * v.bytesPerSector + v.bytesPerSector)).take
            ((i + 1) * v.bytesPerSector) =
            buf.take (i * v.bytesPerSector) ++ v.sectorData (ss + i) := by
          rw [← hl12, List.take_left]
        rw [htk, List.range'_succ, List.flatMap_cons, List.append_assoc]
        have hidx : ss + i + 1 = ss + (i + 1) := by ring
        rw [hidx]
      · have hstep : (r2 + 1) * v.bytesPerSector =
            r2 * v.bytesPerSector + v.bytesPerSector := by ring
        omega

/-- `_read_cluster` on a fresh cluster-sized buffer reads exactly the
cluster's consecutive sectors. -/
theorem readFullCluster_spec (v : VFatM) (hwf : VFatWF v) (c : Nat) :
    readFullCluster v c =
      (List.range' (clusterToSector v c) v.sectorsPerCluster).flatMap v.sectorData := by
  unfold readFullCluster
  rw [readClusterGo_spec v hwf _ _ 0 _ 0 hwf.spc_pos
    (by simp [bytesPerCluster]; ring)]
  simp

/-- A full cluster holds `bytes_per_cluster` bytes. -/
theorem readFullCluster_length (v : VFatM) (hwf : VFatWF v) (c : Nat) :
    (readFullCluster v c).length = bytesPerCluster v := by
  rw [readFullCluster_spec v hwf, flatMap_range'_sectorData_length v hwf,
    bytesPerCluster]
  ring

/-- The bytes of a chain split as first cluster plus the rest. -/
theorem chainBytes_cons (v : VFatM) (c : Nat) (cs : List Nat) :
    chainBytes v (c :: cs) = readFullCluster v c ++ chainBytes v cs := by
  simp [chainBytes, List.flatMap_cons]

/-- A `k`-cluster chain yields `k * bytes_per_cluster` bytes. -/
theorem chainBytes_length (v : VFatM) (hwf : VFatWF v) :
    ∀ cs : List Nat, (chainBytes v cs).length = cs.length * bytesPerCluster v := by
  intro cs
  induction cs with
  | nil => simp [chainBytes]
  | cons c t ih =>
    rw [chainBytes_cons, List.length_append, ih, readFullCluster_length v hwf]
    simp
    ring

/-- Iterator step on a chain link: yield the cluster, move to the next. -/
theorem clusterIterNext_chain_step (v : VFatM) {c x c2 : Nat}
    (hf : fatEntry v c = .ok x) (hs : fatStatus x = .data c2) :
    clusterIterNext v { current := c, eocOccurred := false } =
      (some (.ok c), { current := c2, eocOccurred := false }) := by
  unfold clusterIterNext
  simp [hf, hs]

/-- Iterator step on the final chain link: yield the cluster and latch. -/
theorem clusterIterNext_chain_last (v : VFatM) {c x w : Nat}
    (hf : fatEntry v c = .ok x) (hs : fatStatus x = .eoc w) :
    clusterIterNext v { current := c, eocOccurred := false } =
      (some (.ok c), { current := c, eocOccurred := true }) := by
  unfold clusterIterNext
  simp [hf, hs]

/-- A latched iterator is exhausted. -/
theorem clusterIterNext_latched (v : VFatM) (c : Nat) :
    clusterIterNext v { current := c, eocOccurred := true } =
      (none, { current := c, eocOccurred := true }) := by
  unfold clusterIterNext
  simp

/-- The `read_chain` loop appends exactly the bytes of the chain. -/
theorem readChainGo_spec (v : VFatM) :
    ∀ {c cs}, ChainM v c cs → ∀ (fuel : Nat) (acc : List Nat), cs.length + 1 ≤ fuel →
    readChainGo v fuel { current := c, eocOccurred := false } acc =
      some (.ok (acc ++ chainBytes v cs)) := by
  intro c cs hch
  induction hch with
  | last c x w h2 hf hs =>
    intro fuel acc hfuel
    obtain ⟨f, rfl⟩ : ∃ f, fuel = f + 1 + 1 := ⟨fuel - 2, by simp at hfuel; omega⟩
    simp only [readChainGo, clusterIterNext_chain_last v hf hs,
      clusterIterNext_latched]
    simp [chainBytes_cons, chainBytes]
  | step c x c2 cs h2 hf hs hch2 ih =>
    intro fuel acc hfuel
    obtain ⟨f, rfl⟩ : ∃ f, fuel = f + 1 := ⟨fuel - 1, by omega⟩
    simp only [readChainGo, clusterIterNext_chain_step v hf hs]
    rw [ih f _ (by simp at hfuel; omega), chainBytes_cons, ← List.append_assoc]

/-- `read_chain` on a chain returns exactly the chain bytes. -/
theorem readChain_spec (v : VFatM) {c : Nat} {cs : List Nat} (hch : ChainM v c cs)
    (fuel : Nat) (hfuel : cs.length + 1 ≤ fuel) :
    readChain v fuel c = some (.ok (chainBytes v cs)) := by
  unfold readChain
  rw [readChainGo_spec v hch fuel [] hfuel]
  simp

/-- Characterization of the `read_cluster` loop over a whole chain: the
bytes of the chain starting at intra-cluster offset `off` are spliced into
the buffer from position `pos` until the buffer or the chain runs out, and
the position moves to `min buf.length (pos + (available - off))`. -/
theorem readClusterChainGo_spec (v : VFatM) (hwf : VFatWF v) :
    ∀ {c cs}, ChainM v c cs → ∀ (fuel : Nat) (buf : List Nat) (pos off : Nat),
    cs.length + 1 ≤ fuel → pos ≤ buf.length → off < bytesPerCluster v →
    readClusterChainGo v fuel { current := c, eocOccurred := false } buf pos off =
      some (.ok (
        buf.take pos ++
          ((chainBytes v cs).drop off).take
            (min buf.length (pos + (cs.length * bytesPerCluster v - off)) - pos) ++
          buf.drop (min buf.length (pos + (cs.length * bytesPerCluster v - off))),
        min buf.length (pos + (cs.length * bytesPerCluster v - off)))) := by
  intro c cs hch
  induction hch with
  | last c x w h2 hf hs =>
    intro fuel buf pos off hfuel hpos hoff
    obtain ⟨f, rfl⟩ : ∃ f, fuel = f + 1 + 1 := ⟨fuel - 2, by simp at hfuel; omega⟩
    simp only [readClusterChainGo, clusterIterNext_chain_last v hf hs,
      List.length_singleton, Nat.one_mul]
    have hrcLen : (readFullCluster v c).length = bytesPerCluster v :=
      readFullCluster_length v hwf c
    have hpar : pos + (bytesPerCluster v - off) = pos + bytesPerCluster v - off := by
      omega
    by_cases hfull : pos ≥ buf.length
    · rw [if_pos hfull]
      have hpe : pos = buf.length := Nat.le_antisymm hpos hfull
      have hE : min buf.length (pos + (bytesPerCluster v - off)) = buf.length := by
        omega
      rw [hE]
      have h1 : buf.take pos = buf := by rw [hpe]; exact List.take_length buf
      have h2q : ((chainBytes v [c]).drop off).take (buf.length - pos) = [] := by
        have hz : buf.length - pos = 0 := by omega
        rw [hz, List.take_zero]
      have h3 : buf.drop buf.length = [] := List.drop_eq_nil_of_le le_rfl
      rw [h1, h2q, h3, List.append_nil, List.append_nil, hpe]
    · rw [if_neg hfull]
      simp only [readClusterChainGo, clusterIterNext_latched]
      have hslLen :
          (((readFullCluster v c).drop off).take
            (min buf.length (pos + bytesPerCluster v - off) - pos)).length =
          min buf.length (pos + bytesPerCluster v - off) - pos := by
        rw [List.length_take, List.length_drop, hrcLen]
        omega
      rw [hslLen]
      have hposE : pos + (min buf.length (pos + bytesPerCluster v - off) - pos) =
          min buf.length (pos + bytesPerCluster v - off) := by omega
      rw [hposE, hpar]
      have hcb1 : chainBytes v [c] = readFullCluster v c := by
        simp [chainBytes]
      rw [hcb1]
  | step c x c2 cs h2 hf hs hch2 ih =>
    intro fuel buf pos off hfuel hpos hoff
    obtain ⟨f, rfl⟩ : ∃ f, fuel = f + 1 := ⟨fuel - 1, by omega⟩
    simp only [readClusterChainGo, clusterIterNext_chain_step v hf hs]
    have hrcLen : (readFullCluster v c).length = bytesPerCluster v :=
      readFullCluster_length v hwf c
    have hcbStep : (cs.length + 1) * bytesPerCluster v =
        cs.length * bytesPerCluster v + bytesPerCluster v := by ring
    have hlenCons : (c :: cs).length = cs.length + 1 := List.length_cons c cs
    by_cases hfull : pos ≥ buf.length
    · rw [if_pos hfull]
      have hpe : pos = buf.length := Nat.le_antisymm hpos hfull
      have hE : min buf.length (pos + ((c :: cs).length * bytesPerCluster v - off)) =
          buf.length := by
        rw [hlenCons]
        omega
      rw [hE]
      have h1 : buf.take pos = buf := by rw [hpe]; exact List.take_length buf
      have h2q : ((chainBytes v (c :: cs)).drop off).take (buf.length - pos) = [] := by
        have : buf.length - pos = 0 := by omega
        rw [this, List.take_zero]
      have h3 : buf.drop buf.length = [] := List.drop_eq_nil_of_le le_rfl
      rw [h1, h2q, h3, List.append_nil, List.append_nil, hpe]
    · rw [if_neg hfull]
      have hlt : pos < buf.length := by omega
      -- the spliced slice of this cluster
      have hslLen :
          (((readFullCluster v c).drop off).take
            (min buf.length (pos + bytesPerCluster v - off) - pos)).length =
          min buf.length (pos + bytesPerCluster v - off) - pos := by
        rw [List.length_take, List.length_drop, hrcLen]
        omega
      rw [hslLen]
      have hposE : pos + (min buf.length (pos + bytesPerCluster v - off) - pos) =
          min buf.length (pos + bytesPerCluster v - off) := by omega
      rw [hposE]
      set E1 := min buf.length (pos + bytesPerCluster v - off) with hE1def
      set sl := ((readFullCluster v c).drop off).take (E1 - pos) with hsldef
      have hslLen2 : sl.length = E1 - pos := by
        rw [hsldef, List.length_take, List.length_drop, hrcLen]
        omega
      have htakeLen : (buf.take pos).length = pos := by
        rw [List.length_take]; omega
      have hbuf2Len : (buf.take pos ++ sl ++ buf.drop E1).length = buf.length := by
        rw [List.length_append, List.length_append, htakeLen, hslLen2, List.length_drop]
        omega
      have hcbpos : 0 < bytesPerCluster v :=
        Nat.mul_pos hwf.bps_pos hwf.spc_pos
      have hE1le : E1 ≤ buf.length := by omega
      have hposE1 : pos ≤ E1 := by omega
      rw [ih f (buf.take pos ++ sl ++ buf.drop E1) E1 0
        (by rw [hlenCons] at hfuel; omega) (by omega) (by omega)]
      rw [hbuf2Len]
      set E2 := min buf.length (E1 + (cs.length * bytesPerCluster v - 0)) with hE2def
      have hfirstLen : (buf.take pos ++ sl).length = E1 := by
        rw [List.length_append, htakeLen, hslLen2]
        omega
      -- take E1 of the spliced buffer is its first two segments
      have htk : (buf.take pos ++ sl ++ buf.drop E1).take E1 = buf.take pos ++ sl := by
        rw [← hfirstLen, List.take_left]
      -- drop E2 of the spliced buffer is drop E2 of the original
      have hdr : (buf.take pos ++ sl ++ buf.drop E1).drop E2 = buf.drop E2 := by
        have h1 : (buf.take pos ++ sl ++ buf.drop E1).drop E2 =
            (buf.drop E1).drop (E2 - E1) := by
          conv_lhs =>
            rw [show E2 = (List.take pos buf ++ sl).length + (E2 - E1) from by
              rw [hfirstLen]; omega]
          rw [List.drop_append]
        rw [h1, List.drop_drop]
        congr 1
        omega
      rw [htk, hdr]
      -- the final position of the two formulas agree
      have hEfin : E2 = min buf.length (pos + ((c :: cs).length * bytesPerCluster v - off)) := by
        rw [hlenCons, hcbStep]
        omega
      -- the chain-byte slice splits into this cluster's slice and the rest
      have hmid : ((chainBytes v (c :: cs)).drop off).take
          (min buf.length (pos + ((c :: cs).length * bytesPerCluster v - off)) - pos) =
          sl ++ ((chainBytes v cs).drop 0).take (E2 - E1) := by
        rw [chainBytes_cons, List.drop_append_of_le_length (by omega),
          List.take_append_eq_append_take]
        have hdl : ((readFullCluster v c).drop off).length = bytesPerCluster v - off := by
          rw [List.length_drop, hrcLen]
        rw [← hEfin, hdl]
        congr 1
        · -- slice of this cluster: the two take amounts clip identically
          rw [hsldef, List.take_eq_take, List.length_drop, hrcLen]
          omega
        · -- slice of the rest of the chain
          rw [List.drop_zero]
          congr 1
          omega
      rw [hmid, ← hEfin]
      simp [List.append_assoc]

/-- Chain bytes distribute over list append. -/
theorem chainBytes_append (v : VFatM) (l1 l2 : List Nat) :
    chainBytes v (l1 ++ l2) = chainBytes v l1 ++ chainBytes v l2 := by
  simp [chainBytes, List.flatMap_append]

/-- Unfolding one skip step. -/
theorem iterSkip_succ (v : VFatM) (s : ClusterIterState) (n : Nat) :
    iterSkip v s (n + 1) = iterSkip v (clusterIterNext v s).2 n := rfl

/-- A chain list starts with its starting cluster. -/
theorem chainM_head (v : VFatM) {c : Nat} {cs : List Nat} (h : ChainM v c cs) :
    ∃ t, cs = c :: t := by
  cases h with
  | last c x w h2 hf hs => exact ⟨[], rfl⟩
  | step c x c2 t h2 hf hs hch => exact ⟨t, rfl⟩

/-- Skipping `q < k` items of a chain iterator lands on the q-th chain
cluster with the chain suffix still ahead. -/
theorem iterSkip_chain (v : VFatM) :
    ∀ (q : Nat) {c : Nat} {cs : List Nat}, ChainM v c cs → q < cs.length →
    ∃ c2 cs2, cs.drop q = c2 :: cs2 ∧ ChainM v c2 (c2 :: cs2) ∧
      iterSkip v { current := c, eocOccurred := false } q =
        { current := c2, eocOccurred := false } := by
  intro q
  induction q with
  | zero =>
    intro c cs hch _
    obtain ⟨t, rfl⟩ := chainM_head v hch
    exact ⟨c, t, rfl, hch, rfl⟩
  | succ q2 ih =>
    intro c cs hch hq
    cases hch with
    | last c x w h2 hf hs => simp at hq
    | step c x c2 cs2 h2 hf hs hch2 =>
      have hstep : iterSkip v { current := c, eocOccurred := false } (q2 + 1) =
          iterSkip v { current := c2, eocOccurred := false } q2 := by
        rw [iterSkip_succ, clusterIterNext_chain_step v hf hs]
      obtain ⟨c3, cs3, hdrop, hch3, hskip⟩ := ih hch2 (by simp at hq; omega)
      exact ⟨c3, cs3, by simpa using hdrop, hch3, by rw [hstep, hskip]⟩

/-- Skipping all `k` items of a chain iterator leaves it latched. -/
theorem iterSkip_chain_end (v : VFatM) :
    ∀ {c : Nat} {cs : List Nat}, ChainM v c cs →
    ∃ lc, iterSkip v { current := c, eocOccurred := false } cs.length =
      { current := lc, eocOccurred := true } := by
  intro c cs hch
  induction hch with
  | last c x w h2 hf hs =>
    refine ⟨c, ?_⟩
    show iterSkip v { current := c, eocOccurred := false } (0 + 1) = _
    rw [iterSkip_succ, clusterIterNext_chain_last v hf hs]
    rfl
  | step c x c2 cs2 h2 hf hs hch2 ih =>
    obtain ⟨lc, hskip⟩ := ih
    refine ⟨lc, ?_⟩
    show iterSkip v { current := c, eocOccurred := false } (cs2.length + 1) = _
    rw [iterSkip_succ, clusterIterNext_chain_step v hf hs]
    exact hskip

/-- `read_cluster` on a chain: any byte range inside the chain is served
bit-identically from the chain bytes, and the full requested length is
copied. -/
theorem readCluster_spec (v : VFatM) (hwf : VFatWF v) {c : Nat} {cs : List Nat}
    (hch : ChainM v c cs) (fuel : Nat) (hfuel : cs.length + 1 ≤ fuel) (o n : Nat)
    (hon : o + n ≤ cs.length * bytesPerCluster v) :
    readCluster v fuel c o n =
      some (.ok (((chainBytes v cs).drop o).take n, n)) := by
  have hcb : 0 < bytesPerCluster v := Nat.mul_pos hwf.bps_pos hwf.spc_pos
  simp only [readCluster]
  obtain ⟨q, hqdef⟩ : ∃ q, o / bytesPerCluster v = q := ⟨_, rfl⟩
  obtain ⟨r, hrdef⟩ : ∃ r, o % bytesPerCluster v = r := ⟨_, rfl⟩
  have hdm : q * bytesPerCluster v + r = o := by
    rw [← hqdef, ← hrdef, Nat.mul_comm]
    exact Nat.div_add_mod o (bytesPerCluster v)
  have hrlt : r < bytesPerCluster v := by
    rw [← hrdef]
    exact Nat.mod_lt _ hcb
  rw [hqdef, hrdef]
  by_cases hq : q < cs.length
  · obtain ⟨c2, cs2, hdrop, hch2, hskip⟩ := iterSkip_chain v q hch hq
    rw [hskip]
    have hlen2 : (c2 :: cs2).length = cs.length - q := by
      rw [← hdrop, List.length_drop]
    have hsplitmul : (cs.length - q) * bytesPerCluster v + q * bytesPerCluster v =
        cs.length * bytesPerCluster v := by
      rw [← Nat.add_mul, Nat.sub_add_cancel (Nat.le_of_lt hq)]
    have hfuel2 : (c2 :: cs2).length + 1 ≤ fuel := by
      have hle : (c2 :: cs2).length ≤ cs.length := by
        rw [← hdrop, List.length_drop]
        exact Nat.sub_le _ _
      omega
    rw [readClusterChainGo_spec v hwf hch2 fuel (List.replicate n 0) 0 r hfuel2
      (Nat.zero_le _) hrlt]
    have hlenrep : (List.replicate n (0 : Nat)).length = n := List.length_replicate ..
    have hEn : min (List.replicate n (0 : Nat)).length
        (0 + ((c2 :: cs2).length * bytesPerCluster v - r)) = n := by
      rw [hlenrep, hlen2]
      omega
    rw [hEn]
    have hdropn : (List.replicate n (0 : Nat)).drop n = [] :=
      List.drop_eq_nil_of_le (by rw [hlenrep])
    have hdropEq : (chainBytes v cs).drop o = (chainBytes v (c2 :: cs2)).drop r := by
      have hB1 : (chainBytes v (cs.take q)).length = q * bytesPerCluster v := by
        rw [chainBytes_length v hwf, List.length_take,
          Nat.min_eq_left (Nat.le_of_lt hq)]
      have h2a := @List.drop_append Nat (chainBytes v (cs.take q))
        (chainBytes v (c2 :: cs2)) r
      have h3a : (chainBytes v (cs.take q)).length + r = o := by
        rw [hB1]
        omega
      rw [h3a] at h2a
      conv_lhs => rw [← List.take_append_drop q cs, chainBytes_append, hdrop]
      exact h2a
    rw [hdropEq]
    simp [hdropn]
  · -- the skip consumes the whole chain: the request starts at its very end
    have hqe : cs.length ≤ q := Nat.not_lt.1 hq
    have hmul : cs.length * bytesPerCluster v ≤ q * bytesPerCluster v :=
      Nat.mul_le_mul_right _ hqe
    have hn : n = 0 := by omega
    have ho : o = cs.length * bytesPerCluster v := by omega
    have hq2 : q = cs.length := by
      have : o / bytesPerCluster v = cs.length := by
        rw [ho, Nat.mul_div_cancel _ hcb]
      omega
    obtain ⟨lc, hskip⟩ := iterSkip_chain_end v hch
    rw [hq2, hskip, hn]
    obtain ⟨f, rfl⟩ : ∃ f, fuel = f + 1 := ⟨fuel - 1, by omega⟩
    simp only [readClusterChainGo, clusterIterNext_latched]
    simp

/-- C8: for every chain of `k` clusters starting at `c`, `read_chain`
returns exactly `k * bytes_per_cluster` bytes, and every `read_cluster`
call over a sub-range of those bytes returns exactly that slice of the
`read_chain` output — hence any concatenation of `read_cluster` calls
covering the same byte range is bit-identical to it. -/
theorem c8_read_chain_read_cluster_agree (v : VFatM) (c : Nat) (cs : List Nat)
    (fuel : Nat) (hwf : VFatWF v) (hch : ChainM v c cs)
    (hfuel : cs.length + 1 ≤ fuel) :
    ∃ bytes, readChain v fuel c = some (.ok bytes) ∧
      bytes.length = cs.length * bytesPerCluster v ∧
      ∀ o n, o + n ≤ cs.length * bytesPerCluster v →
        readCluster v fuel c o n = some (.ok ((bytes.drop o).take n, n)) := by
  refine ⟨chainBytes v cs, readChain_spec v hch fuel hfuel,
    chainBytes_length v hwf cs, ?_⟩
  intro o n hon
  exact readCluster_spec v hwf hch fuel hfuel o n hon

/-- Every sector of the miniature volume holds 8 bytes. -/
theorem v8sector_len : ∀ s, (v8sector s).length = 8 := by
  intro s
  unfold v8sector
  split <;> simp

/-- The miniature volume is well formed. -/
theorem v8_wf : VFatWF v8 :=
  ⟨by decide, by decide, fun s => v8sector_len s⟩

/-- The FAT of the miniature volume links 2 → 3 → EOC. -/
theorem chain_v8 : ChainM v8 2 [2, 3] :=
  ChainM.step 2 3 3 [3] (by decide) (by decide) (by decide)
    (ChainM.last 3 0x0FFFFFF8 0x0FFFFFF8 (by decide) (by decide) (by decide))

/-- C8 witness: the theorem applied to the two-cluster miniature volume. -/
theorem c8_witness :
    ∃ bytes, readChain v8 3 2 = some (.ok bytes) ∧
      bytes.length = ([2, 3] : List Nat).length * bytesPerCluster v8 ∧
      ∀ o n, o + n ≤ ([2, 3] : List Nat).length * bytesPerCluster v8 →
        readCluster v8 3 2 o n = some (.ok ((bytes.drop o).take n, n)) :=
  c8_read_chain_read_cluster_agree v8 2 [2, 3] 3 v8_wf chain_v8 (by decide)

/-- Every sector of the scenario volume holds 512 bytes. -/
theorem v6sector_len : ∀ s, (v6sector s).length = 512 := by
  intro s
  unfold v6sector
  split <;> simp

/-- The scenario volume is well formed. -/
theorem v6_wf : VFatWF v6 :=
  ⟨by decide, by decide, fun s => v6sector_len s⟩

set_option maxRecDepth 8000 in
/-- The FAT of the scenario volume links 10 → 11 → EOC. -/
theorem chain_v6 : ChainM v6 10 [10, 11] :=
  ChainM.step 10 11 11 [11] (by decide) (by decide) (by decide)
    (ChainM.last 11 0x0FFFFFF8 0x0FFFFFF8 (by decide) (by decide) (by decide))

/-- Running `File::read` once its `read_cluster` call and the subsequent
offset-advancing seek are known. -/
theorem fileRead_eq (v : VFatM) (fuel : Nat) (f : FileM) (bufLen : Nat)
    (buf : List Nat) (n r2 : Nat) (f2 : FileM)
    (hrc : readCluster v fuel f.cluster f.offset (min (f.size - f.offset) bufLen) =
      some (.ok (buf, n)))
    (hsk : fileSeek f (.current (n : Int)) = (.ok r2, f2)) :
    fileRead v fuel f bufLen = some (.ok (buf.take n), f2) := by
  simp only [fileRead]
  rw [hrc]
  dsimp only
  rw [hsk]

/-- The chain bytes of the scenario volume are the 16 data sectors. -/
theorem c6_chain_bytes :
    chainBytes v6 [10, 11] = (List.range 16).flatMap (fun i => v6sector (164 + i)) := by
  rw [chainBytes_cons, chainBytes_cons]
  rw [readFullCluster_spec v6 v6_wf 10, readFullCluster_spec v6 v6_wf 11]
  have h164 : clusterToSector v6 10 = 164 := by decide
  have h172 : clusterToSector v6 11 = 172 := by decide
  have hspc : v6.sectorsPerCluster = 8 := rfl
  rw [h164, h172, hspc]
  have hnil : chainBytes v6 [] = [] := rfl
  rw [hnil, List.append_nil, ← List.flatMap_append]
  have hr : List.range' 164 8 ++ List.range' 172 8 =
      (List.range 16).map (fun i => 164 + i) := by decide
  rw [hr]
  simp [List.flatMap_map]
  rfl

/-- The first 1500 chain bytes are the file's source bytes. -/
theorem c6_bytes_eq : (chainBytes v6 [10, 11]).take 1500 = c6SourceBytes := by
  rw [c6_chain_bytes]
  rfl

/-- The source bytes have length 1500. -/
theorem c6_len : c6SourceBytes.length = 1500 := by
  rw [← c6_bytes_eq, List.length_take, chainBytes_length v6 v6_wf]
  decide

/-- The first read of the scenario: 1500 bytes come back (the whole file),
and the offset advances to 1500. -/
theorem c6_first_read :
    fileRead v6 3 file6 2048 = some (.ok c6SourceBytes, c6FileAfter) := by
  have hrc : readCluster v6 3 10 0 1500 =
      some (.ok (((chainBytes v6 [10, 11]).drop 0).take 1500, 1500)) :=
    readCluster_spec v6 v6_wf chain_v6 3 (by decide) 0 1500 (by decide)
  rw [List.drop_zero, c6_bytes_eq] at hrc
  have hsk : fileSeek file6 (.current (1500 : Int)) = (.ok 1500, c6FileAfter) := by
    decide
  have h := fileRead_eq v6 3 file6 2048 c6SourceBytes 1500 1500 c6FileAfter hrc hsk
  rw [h]
  have htk : c6SourceBytes.take 1500 = c6SourceBytes :=
    List.take_of_length_le (by rw [c6_len])
  rw [htk]

/-- The second read of the scenario: the offset sits at the end, the clamp
is zero, and no bytes come back. -/
theorem c6_second_read :
    fileRead v6 3 c6FileAfter 2048 = some (.ok [], c6FileAfter) := by
  have hrc : readCluster v6 3 10 1500 0 =
      some (.ok (((chainBytes v6 [10, 11]).drop 1500).take 0, 0)) :=
    readCluster_spec v6 v6_wf chain_v6 3 (by decide) 1500 0 (by decide)
  rw [List.take_zero] at hrc
  have hsk : fileSeek c6FileAfter (.current (0 : Int)) = (.ok 1500, c6FileAfter) := by
    decide
  have h := fileRead_eq v6 3 c6FileAfter 2048 [] 0 1500 c6FileAfter hrc hsk
  rw [h]
  rfl

/-- C6 counterexample: the first 2048-byte read of the 1500-byte file does
not return 2048 bytes (the clamp `min(size - offset, buf.len())` caps it at
the file size). -/
theorem c6_first_read_not_2048 :
    ¬ ∃ (d : List Nat) (f2 : FileM),
      fileRead v6 3 file6 2048 = some (.ok d, f2) ∧ d.length = 2048 := by
  intro hex
  obtain ⟨d, f2, hrun, hlen⟩ := hex
  rw [c6_first_read] at hrun
  simp only [Option.some.injEq, Prod.mk.injEq, RRes.ok.injEq] at hrun
  obtain ⟨hd, _⟩ := hrun
  rw [← hd, c6_len] at hlen
  exact absurd hlen (by decide)

/-- C6 amended: on the 1500-byte file over the 4096-byte-cluster chain
10 → 11 → EOC, a first read with a 2048-byte buffer returns
min(1500, 2048) = 1500 bytes — exactly the source bytes of the file — and
a second read with a 2048-byte buffer returns 0 bytes (EOF after the
clamp). -/
theorem c6_reads_clamped :
    fileRead v6 3 file6 2048 = some (.ok c6SourceBytes, c6FileAfter) ∧
    c6SourceBytes.length = 1500 ∧
    fileRead v6 3 c6FileAfter 2048 = some (.ok [], c6FileAfter) :=
  ⟨c6_first_read, c6_len, c6_second_read⟩

/-- Wrapping is the identity on the i64 range. -/
theorem wrapI64_id (x : Int) (h1 : -(2 ^ 63) ≤ x) (h2 : x < 2 ^ 63) :
    wrapI64 x = x := by
  unfold wrapI64
  omega

/-- `as u64` of a nonnegative in-range value is its magnitude. -/
theorem u64OfI64_nonneg (x : Int) (h1 : 0 ≤ x) (h2 : x < 2 ^ 63) :
    u64OfI64 x = x.toNat := by
  unfold u64OfI64
  omega

/-- `as u64` of a negative i64 value lands in the upper half of u64. -/
theorem u64OfI64_neg (x : Int) (h1 : -(2 ^ 63) ≤ x) (h2 : x < 0) :
    2 ^ 63 ≤ u64OfI64 x := by
  unfold u64OfI64
  omega

/-- `as i64` of a small u64 is the same number. -/
theorem i64OfU64_small (n : Nat) (h : n < 2 ^ 63) : i64OfU64 n = (n : Int) := by
  unfold i64OfU64
  rw [if_pos h]

/-- A `Current` seek by an in-range forward amount lands on `offset + n`. -/
theorem fileSeek_current_ok (f : FileM) (n : Nat) (hsz : f.size < 2 ^ 62)
    (hn : f.offset + n ≤ f.size) :
    fileSeek f (.current (n : Int)) =
      (.ok (f.offset + n), { f with offset := f.offset + n }) := by
  unfold fileSeek setOffset
  dsimp only
  have hi : i64OfU64 f.offset = (f.offset : Int) := i64OfU64_small _ (by omega)
  rw [hi]
  have hw : wrapI64 ((f.offset : Int) + (n : Int)) = (f.offset : Int) + (n : Int) :=
    wrapI64_id _ (by omega) (by omega)
  rw [hw]
  have hu : u64OfI64 ((f.offset : Int) + (n : Int)) = f.offset + n := by
    rw [u64OfI64_nonneg _ (by omega) (by omega)]
    omega
  rw [hu, if_neg (by omega)]

/-- A failed seek leaves the file untouched. -/
theorem fileSeek_err_state (f : FileM) (pos : SeekFromM) (e : IOEK)
    (h : (fileSeek f pos).1 = .err e) : (fileSeek f pos).2 = f := by
  cases pos with
  | start p =>
    unfold fileSeek setOffset at *
    dsimp only at h ⊢
    split_ifs at h ⊢
    · rfl
  | current p =>
    unfold fileSeek setOffset at *
    dsimp only at h ⊢
    split_ifs at h ⊢
    · rfl
  | fromEnd p =>
    unfold fileSeek setOffset at *
    dsimp only at h ⊢
    split_ifs at h ⊢
    · rfl

/-- C7: seek succeeds exactly when the resolved target (as the signed
64-bit arithmetic of the source computes it) lies in `[0, size]`,
returning the new absolute offset, and fails with InvalidInput otherwise;
`SeekFrom::End(p)` resolves to `size - 1 + p`, so on a 1500-byte file
`End(0)` returns 1499, `End(1)` returns 1500 and `End(2)` fails. -/
theorem c7_seek_bounds (f : FileM) (hsz : f.size < 2 ^ 62) :
    (∀ p : Nat, fileSeek f (.start p) =
      if p ≤ f.size then (.ok p, { f with offset := p })
      else (.err .invalidInput, f)) ∧
    (f.offset ≤ f.size → ∀ p : Int, -(2 ^ 62) ≤ p → p ≤ 2 ^ 62 →
      fileSeek f (.current p) =
        if 0 ≤ (f.offset : Int) + p ∧ (f.offset : Int) + p ≤ (f.size : Int) then
          (.ok ((f.offset : Int) + p).toNat,
            { f with offset := ((f.offset : Int) + p).toNat })
        else (.err .invalidInput, f)) ∧
    (∀ p : Int, -(2 ^ 62) ≤ p → p ≤ 2 ^ 62 →
      fileSeek f (.fromEnd p) =
        if 0 ≤ (f.size : Int) - 1 + p ∧ (f.size : Int) - 1 + p ≤ (f.size : Int) then
          (.ok ((f.size : Int) - 1 + p).toNat,
            { f with offset := ((f.size : Int) - 1 + p).toNat })
        else (.err .invalidInput, f)) ∧
    fileSeek file1500 (.fromEnd 0) = (.ok 1499, { file1500 with offset := 1499 }) ∧
    fileSeek file1500 (.fromEnd 1) = (.ok 1500, { file1500 with offset := 1500 }) ∧
    fileSeek file1500 (.fromEnd 2) = (.err .invalidInput, file1500) := by
  refine ⟨?_, ?_, ?_, by decide, by decide, by decide⟩
  · intro p
    unfold fileSeek setOffset
    dsimp only
    by_cases h : p ≤ f.size
    · rw [if_neg (by omega), if_pos h]
    · rw [if_pos (by omega), if_neg h]
  · intro hoff p hp1 hp2
    unfold fileSeek setOffset
    dsimp only
    have hi : i64OfU64 f.offset = (f.offset : Int) := i64OfU64_small _ (by omega)
    rw [hi]
    have hw : wrapI64 ((f.offset : Int) + p) = (f.offset : Int) + p :=
      wrapI64_id _ (by omega) (by omega)
    rw [hw]
    by_cases hc : 0 ≤ (f.offset : Int) + p ∧ (f.offset : Int) + p ≤ (f.size : Int)
    · have hu : u64OfI64 ((f.offset : Int) + p) = ((f.offset : Int) + p).toNat :=
        u64OfI64_nonneg _ hc.1 (by omega)
      rw [hu, if_pos hc, if_neg (by omega)]
    · rw [if_neg hc]
      by_cases hpos : 0 ≤ (f.offset : Int) + p
      · have hu : u64OfI64 ((f.offset : Int) + p) = ((f.offset : Int) + p).toNat :=
          u64OfI64_nonneg _ hpos (by omega)
        rw [hu, if_pos (by omega)]
      · have hu : 2 ^ 63 ≤ u64OfI64 ((f.offset : Int) + p) :=
          u64OfI64_neg _ (by omega) (by omega)
        rw [if_pos (by omega)]
  · intro p hp1 hp2
    unfold fileSeek setOffset
    dsimp only
    have hi : i64OfU64 f.size = (f.size : Int) := i64OfU64_small _ (by omega)
    rw [hi]
    have hw1 : wrapI64 ((f.size : Int) - 1) = (f.size : Int) - 1 :=
      wrapI64_id _ (by omega) (by omega)
    rw [hw1]
    have hw2 : wrapI64 ((f.size : Int) - 1 + p) = (f.size : Int) - 1 + p :=
      wrapI64_id _ (by omega) (by omega)
    rw [hw2]
    by_cases hc : 0 ≤ (f.size : Int) - 1 + p ∧ (f.size : Int) - 1 + p ≤ (f.size : Int)
    · have hu : u64OfI64 ((f.size : Int) - 1 + p) = ((f.size : Int) - 1 + p).toNat :=
        u64OfI64_nonneg _ hc.1 (by omega)
      rw [hu, if_pos hc, if_neg (by omega)]
    · rw [if_neg hc]
      by_cases hpos : 0 ≤ (f.size : Int) - 1 + p
      · have hu : u64OfI64 ((f.size : Int) - 1 + p) = ((f.size : Int) - 1 + p).toNat :=
          u64OfI64_nonneg _ hpos (by omega)
        rw [hu, if_pos (by omega)]
      · have hu : 2 ^ 63 ≤ u64OfI64 ((f.size : Int) - 1 + p) :=
          u64OfI64_neg _ (by omega) (by omega)
        rw [if_pos (by omega)]

/-- C7 witness: the theorem at the concrete 1500-byte file (its last three
conjuncts). -/
theorem c7_witness :
    fileSeek file1500 (.fromEnd 0) = (.ok 1499, { file1500 with offset := 1499 }) ∧
    fileSeek file1500 (.fromEnd 1) = (.ok 1500, { file1500 with offset := 1500 }) ∧
    fileSeek file1500 (.fromEnd 2) = (.err .invalidInput, file1500) :=
  (c7_seek_bounds file1500 (by decide)).2.2.2

/-- The `read_cluster` loop never reports more bytes than the buffer holds
and never changes the buffer length. -/
theorem readClusterChainGo_bounds (v : VFatM) :
    ∀ (fuel : Nat) (st : ClusterIterState) (buf : List Nat) (pos off : Nat)
      (b2 : List Nat) (p2 : Nat), pos ≤ buf.length →
    readClusterChainGo v fuel st buf pos off = some (.ok (b2, p2)) →
    p2 ≤ b2.length ∧ b2.length = buf.length := by
  intro fuel
  induction fuel with
  | zero =>
    intro st buf pos off b2 p2 hpos h
    simp [readClusterChainGo] at h
  | succ f ih =>
    intro st buf pos off b2 p2 hpos h
    simp only [readClusterChainGo] at h
    rcases hcn : clusterIterNext v st with ⟨item, st2⟩
    rw [hcn] at h
    cases item with
    | none =>
      dsimp only at h
      obtain ⟨hb, hp⟩ : buf = b2 ∧ pos = p2 := by
        simpa using h
      subst hb
      subst hp
      exact ⟨hpos, rfl⟩
    | some it =>
      dsimp only at h
      by_cases hfull : pos ≥ buf.length
      · rw [if_pos hfull] at h
        obtain ⟨hb, hp⟩ : buf = b2 ∧ pos = p2 := by
          simpa using h
        subst hb
        subst hp
        exact ⟨hpos, rfl⟩
      · rw [if_neg hfull] at h
        cases it with
        | err e => simp at h
        | ok c =>
          dsimp only at h
          have hslle :
              (((readFullCluster v c).drop off).take
                (min buf.length (pos + bytesPerCluster v - off) - pos)).length ≤
              min buf.length (pos + bytesPerCluster v - off) - pos := by
            rw [List.length_take]
            exact Nat.min_le_left _ _
          have hEle : min buf.length (pos + bytesPerCluster v - off) ≤ buf.length :=
            Nat.min_le_left _ _
          have hb2len : (buf.take pos ++
              ((readFullCluster v c).drop off).take
                (min buf.length (pos + bytesPerCluster v - off) - pos) ++
              buf.drop (pos +
                (((readFullCluster v c).drop off).take
                  (min buf.length (pos + bytesPerCluster v - off) - pos)).length)).length =
              buf.length := by
            rw [List.length_append, List.length_append, List.length_take,
              List.length_take, List.length_drop, List.length_drop]
            omega
          have hres := ih st2 _ (min buf.length (pos + bytesPerCluster v - off)) 0 b2 p2
            (by rw [hb2len]; omega) h
          exact ⟨hres.1, by rw [hres.2, hb2len]⟩

/-- `read_cluster` reports at most the buffer length, and returns a buffer
of exactly the requested length. -/
theorem readCluster_bounds (v : VFatM) (fuel : Nat) (c o L : Nat)
    (buf : List Nat) (n : Nat)
    (h : readCluster v fuel c o L = some (.ok (buf, n))) :
    n ≤ L ∧ buf.length = L := by
  simp only [readCluster] at h
  have hb := readClusterChainGo_bounds v fuel _ (List.replicate L 0) 0
    (o % bytesPerCluster v) buf n (Nat.zero_le _) h
  rcases hb with ⟨h1, h2⟩
  rw [List.length_replicate] at h2
  rw [h2] at h1
  exact ⟨h1, h2⟩

/-- C10: the invariant `offset ≤ size` is preserved by every seek and
every read.  The subtraction `size - offset` in `read` is exact (never
underflows); a failed seek leaves the file unchanged; a successful read
advances the offset by exactly the number of bytes returned, keeping it
within the size; a failed read leaves the file unchanged. -/
theorem c10_offset_invariant (v : VFatM) (f : FileM)
    (hoff : f.offset ≤ f.size) (hsz : f.size < 2 ^ 62) :
    f.offset + (f.size - f.offset) = f.size ∧
    (∀ pos, (fileSeek f pos).2.offset ≤ f.size) ∧
    (∀ pos e, (fileSeek f pos).1 = .err e → (fileSeek f pos).2 = f) ∧
    (∀ fuel L d f2, fileRead v fuel f L = some (.ok d, f2) →
      f2.offset = f.offset + d.length ∧ f2.offset ≤ f.size) ∧
    (∀ fuel L e f2, fileRead v fuel f L = some (.err e, f2) → f2 = f) := by
  refine ⟨by omega, ?_, ?_, ?_, ?_⟩
  · intro pos
    cases pos with
    | start p =>
      unfold fileSeek setOffset
      dsimp only
      split_ifs with h
      · exact hoff
      · simpa using Nat.le_of_not_lt h
    | current p =>
      unfold fileSeek setOffset
      dsimp only
      split_ifs with h
      · exact hoff
      · simpa using Nat.le_of_not_lt h
    | fromEnd p =>
      unfold fileSeek setOffset
      dsimp only
      split_ifs with h
      · exact hoff
      · simpa using Nat.le_of_not_lt h
  · intro pos e h
    exact fileSeek_err_state f pos e h
  · intro fuel L d f2 h
    simp only [fileRead] at h
    rcases hrc : readCluster v fuel f.cluster f.offset (min (f.size - f.offset) L) with
      _ | r
    · rw [hrc] at h
      simp at h
    · rw [hrc] at h
      cases r with
      | err e =>
        dsimp only at h
        simp at h
      | ok p =>
        obtain ⟨buf, n⟩ := p
        dsimp only at h
        have hb := readCluster_bounds v fuel f.cluster f.offset _ buf n hrc
        have hnle : n ≤ f.size - f.offset := by
          have := hb.1
          omega
        rw [fileSeek_current_ok f n hsz (by omega)] at h
        dsimp only at h
        obtain ⟨hd, hf⟩ : RRes.ok (buf.take n) = RRes.ok d ∧
            { f with offset := f.offset + n } = f2 := by
          simpa using h
        have hdlen : d.length = n := by
          rw [← RRes.ok.inj hd, List.length_take]
          omega
        rw [← hf]
        constructor
        · dsimp only
          rw [hdlen]
        · dsimp only
          omega
  · intro fuel L e f2 h
    simp only [fileRead] at h
    rcases hrc : readCluster v fuel f.cluster f.offset (min (f.size - f.offset) L) with
      _ | r
    · rw [hrc] at h
      simp at h
    · rw [hrc] at h
      cases r with
      | err e2 =>
        dsimp only at h
        obtain ⟨_, hf⟩ : (RRes.err e2 : RRes (List Nat)) = RRes.err e ∧ f = f2 := by
          simpa using h
        exact hf.symm
      | ok p =>
        obtain ⟨buf, n⟩ := p
        dsimp only at h
        rcases hsk : fileSeek f (.current (n : Int)) with ⟨r2, f3⟩
        rw [hsk] at h
        cases r2 with
        | ok a =>
          dsimp only at h
          simp at h
        | err e3 =>
          dsimp only at h
          obtain ⟨_, hf⟩ : (RRes.err e3 : RRes (List Nat)) = RRes.err e ∧ f3 = f2 := by
            simpa using h
          have hstate : f3 = f := by
            have := fileSeek_err_state f (.current (n : Int)) e3
              (by rw [hsk])
            rw [hsk] at this
            exact this
          rw [← hf, hstate]

/-- C10 witness: the invariant theorem at a concrete volume and file. -/
theorem c10_witness :
    file1500.offset + (file1500.size - file1500.offset) = file1500.size :=
  (c10_offset_invariant v0 file1500 (by decide) (by decide)).1

/-- With a fault-free device, the `ensure_cache` read loop succeeds. -/
theorem fetchGo_some (cfg : CacheCfg) (hdev : ∀ p, ∃ bs, cfg.deviceData p = some bs) :
    ∀ (r p i : Nat) (buf : List Nat), ∃ out, fetchGo cfg p r i buf = some out := by
  intro r
  induction r with
  | zero => intro p i buf; exact ⟨buf, rfl⟩
  | succ r2 ih =>
    intro p i buf
    obtain ⟨bs, hbs⟩ := hdev (p + i)
    simp only [fetchGo]
    rw [hbs]
    exact ih p (i + 1) _

/-- With a fault-free device, fetching any logical sector succeeds. -/
theorem fetchSector_some (cfg : CacheCfg)
    (hdev : ∀ p, ∃ bs, cfg.deviceData p = some bs) (virt : Nat) :
    ∃ out, fetchSector cfg virt = some out := by
  simp only [fetchSector]
  exact fetchGo_some cfg hdev _ _ 0 _

/-- A cache hit leaves everything alone and reads no device sector. -/
theorem ensureCache_hit (cfg : CacheCfg) (st : CacheMap) (n : Nat) (e : CacheEntryM)
    (h : st.lookup n = some e) : ensureCache cfg st n = (.ok (), st, []) := by
  unfold ensureCache
  rw [h]

/-- A cache miss with a successful fetch inserts the fetched entry and
records one device fetch of that sector. -/
theorem ensureCache_miss (cfg : CacheCfg) (st : CacheMap) (n : Nat)
    (h : st.lookup n = none) (bs : List Nat) (hf : fetchSector cfg n = some bs) :
    ensureCache cfg st n =
      (.ok (), (n, { data := bs, dirty := false }) :: st, [n]) := by
  unfold ensureCache
  rw [h, hf]

/-- A cache miss with a failed fetch leaves the cache alone (the entry is
not inserted) but the device was touched. -/
theorem ensureCache_miss_fail (cfg : CacheCfg) (st : CacheMap) (n : Nat)
    (h : st.lookup n = none) (hf : fetchSector cfg n = none) :
    ensureCache cfg st n = (.err .ioError, st, [n]) := by
  unfold ensureCache
  rw [h, hf]

/-- Association-list lookup skips a mismatching head. -/
theorem lookup_cons_ne (st : CacheMap) (m n : Nat) (x : CacheEntryM) (h : n ≠ m) :
    (((m, x) :: st : List (Nat × CacheEntryM)).lookup n) = st.lookup n := by
  have hb : (n == m) = false := beq_eq_false_iff_ne.2 h
  simp [List.lookup, hb]

/-- Association-list lookup finds a matching head. -/
theorem lookup_cons_self (st : CacheMap) (n : Nat) (x : CacheEntryM) :
    (((n, x) :: st : List (Nat × CacheEntryM)).lookup n) = some x := by
  simp [List.lookup]

/-- Every public cache access changes the state and produces events
exactly as `ensure_cache` on its sector does. -/
theorem cacheStep_parts (cfg : CacheCfg) (st : CacheMap) (op : CacheOp) :
    cacheStep cfg st op =
      ((ensureCache cfg st op.sector).2.1, (ensureCache cfg st op.sector).2.2) := by
  have hget : ∀ n, ((cachedGet cfg st n).2.1, (cachedGet cfg st n).2.2) =
      ((ensureCache cfg st n).2.1, (ensureCache cfg st n).2.2) := by
    intro n
    unfold cachedGet
    rcases ensureCache cfg st n with ⟨r, st2, ev⟩
    cases r with
    | ok a =>
      dsimp only
      rcases hl : st2.lookup n with _ | entry <;> rfl
    | err e => rfl
    | panicked m => rfl
  cases op with
  | get n =>
    simpa only [cacheStep, CacheOp.sector] using hget n
  | getMut n =>
    simpa only [cacheStep, CacheOp.sector, cachedGetMut] using hget n
  | readSector n L =>
    have h2 := hget n
    simp only [cacheStep, CacheOp.sector, cachedReadSector]
    rcases hg : cachedGet cfg st n with ⟨r, st2, ev⟩
    rw [hg] at h2
    cases r with
    | ok a => simpa using h2
    | err e => simpa using h2
    | panicked m => simpa using h2

/-- Once a sector is cached, no later operation fetches it again and its
entry survives unchanged. -/
theorem cacheRun_cached (cfg : CacheCfg) :
    ∀ (ops : List CacheOp) (st : CacheMap) (n : Nat) (e : CacheEntryM),
    st.lookup n = some e →
    (cacheRun cfg ops st).1.lookup n = some e ∧
    (cacheRun cfg ops st).2.count n = 0 := by
  intro ops
  induction ops with
  | nil =>
    intro st n e h
    exact ⟨h, rfl⟩
  | cons op rest ih =>
    intro st n e h
    simp only [cacheRun, cacheStep_parts]
    rcases hl : st.lookup op.sector with _ | e2
    · have hne : n ≠ op.sector := by
        intro he
        rw [he, hl] at h
        exact absurd h (by simp)
      rcases hf : fetchSector cfg op.sector with _ | bs
      · rw [ensureCache_miss_fail cfg st op.sector hl hf]
        obtain ⟨h1, h2⟩ := ih st n e h
        refine ⟨h1, ?_⟩
        rw [List.count_append, h2]
        simp [hne]
      · rw [ensureCache_miss cfg st op.sector hl bs hf]
        have hlk : (((op.sector, { data := bs, dirty := false }) :: st :
            List (Nat × CacheEntryM)).lookup n) = some e := by
          rw [lookup_cons_ne st op.sector n _ hne]
          exact h
        obtain ⟨h1, h2⟩ := ih _ n e hlk
        refine ⟨h1, ?_⟩
        rw [List.count_append, h2]
        simp [hne]
    · rw [ensureCache_hit cfg st op.sector e2 hl]
      obtain ⟨h1, h2⟩ := ih st n e h
      refine ⟨h1, ?_⟩
      rw [List.count_append, h2]
      simp

/-- Running any access sequence from a state where `n` is not yet cached:
`n` is fetched at most once, and it ends cached exactly when it was
fetched, holding the device bytes. -/
theorem cacheRun_uncached (cfg : CacheCfg)
    (hdev : ∀ p, ∃ bs, cfg.deviceData p = some bs) :
    ∀ (ops : List CacheOp) (st : CacheMap) (n : Nat),
    st.lookup n = none →
    ((cacheRun cfg ops st).2.count n ≤ 1) ∧
    ((cacheRun cfg ops st).1.lookup n = none ∧ (cacheRun cfg ops st).2.count n = 0 ∨
     ∃ bs, fetchSector cfg n = some bs ∧
       (cacheRun cfg ops st).1.lookup n = some { data := bs, dirty := false } ∧
       (cacheRun cfg ops st).2.count n = 1) := by
  intro ops
  induction ops with
  | nil =>
    intro st n h
    exact ⟨by simp [cacheRun], Or.inl ⟨h, by simp [cacheRun]⟩⟩
  | cons op rest ih =>
    intro st n h
    simp only [cacheRun, cacheStep_parts]
    by_cases hsec : op.sector = n
    · obtain ⟨bs, hf⟩ := fetchSector_some cfg hdev n
      rw [hsec, ensureCache_miss cfg st n h bs hf]
      have hcached := cacheRun_cached cfg rest
        ((n, { data := bs, dirty := false }) :: st) n { data := bs, dirty := false }
        (lookup_cons_self st n _)
      constructor
      · rw [List.count_append, hcached.2]
        simp
      · right
        exact ⟨bs, hf, hcached.1, by rw [List.count_append, hcached.2]; simp⟩
    · have hne : n ≠ op.sector := fun he => hsec he.symm
      rcases hl : st.lookup op.sector with _ | e2
      · rcases hf : fetchSector cfg op.sector with _ | bs
        · rw [ensureCache_miss_fail cfg st op.sector hl hf]
          obtain ⟨h1, h2⟩ := ih st n h
          refine ⟨?_, ?_⟩
          · rw [List.count_append]
            simp [hne, h1]
          · rcases h2 with ⟨ha, hb⟩ | ⟨bs2, ha, hb, hc⟩
            · exact Or.inl ⟨ha, by rw [List.count_append, hb]; simp [hne]⟩
            · exact Or.inr ⟨bs2, ha, hb, by rw [List.count_append, hc]; simp [hne]⟩
        · rw [ensureCache_miss cfg st op.sector hl bs hf]
          have hlk : (((op.sector, { data := bs, dirty := false }) :: st :
              List (Nat × CacheEntryM)).lookup n) = none := by
            rw [lookup_cons_ne st op.sector n _ hne]
            exact h
          obtain ⟨h1, h2⟩ := ih _ n hlk
          refine ⟨?_, ?_⟩
          · rw [List.count_append]
            simp [hne, h1]
          · rcases h2 with ⟨ha, hb⟩ | ⟨bs2, ha, hb, hc⟩
            · exact Or.inl ⟨ha, by rw [List.count_append, hb]; simp [hne]⟩
            · exact Or.inr ⟨bs2, ha, hb, by rw [List.count_append, hc]; simp [hne]⟩
      · rw [ensureCache_hit cfg st op.sector e2 hl]
        obtain ⟨h1, h2⟩ := ih st n h
        refine ⟨?_, ?_⟩
        · rw [List.count_append]
          simpa using h1
        · rcases h2 with ⟨ha, hb⟩ | ⟨bs2, ha, hb, hc⟩
          · exact Or.inl ⟨ha, by rw [List.count_append, hb]; simp⟩
          · exact Or.inr ⟨bs2, ha, hb, by rw [List.count_append, hc]; simp⟩

/-- C9: from the empty cache of a fresh mount, any sequence of `get` /
`get_mut` / `read_sector` accesses fetches each logical sector `n` from
the block device at most once; and whenever `n` ends up cached, the
cached bytes are exactly what `ensure_cache` fetched from the device, so
a further `get` on `n` returns those bytes, changes no cache state and
touches the device for no sector at all. -/
theorem c9_sector_cached_once (cfg : CacheCfg)
    (hdev : ∀ p, ∃ bs, cfg.deviceData p = some bs)
    (ops : List CacheOp) (n : Nat) :
    ((cacheRun cfg ops ([] : CacheMap)).2.count n ≤ 1) ∧
    (∀ e : CacheEntryM, (cacheRun cfg ops ([] : CacheMap)).1.lookup n = some e →
      fetchSector cfg n = some e.data ∧
      cachedGet cfg (cacheRun cfg ops ([] : CacheMap)).1 n =
        (.ok e.data, (cacheRun cfg ops ([] : CacheMap)).1, [])) := by
  have h0 : (([] : CacheMap).lookup n) = none := rfl
  obtain ⟨h1, h2⟩ := cacheRun_uncached cfg hdev ops ([] : CacheMap) n h0
  refine ⟨h1, ?_⟩
  intro e he
  rcases h2 with ⟨ha, _⟩ | ⟨bs, ha, hb, _⟩
  · rw [ha] at he
    exact absurd he (by simp)
  · rw [hb] at he
    obtain rfl : ({ data := bs, dirty := false } : CacheEntryM) = e :=
      Option.some_injective _ he
    refine ⟨ha, ?_⟩
    unfold cachedGet
    rw [ensureCache_hit cfg _ n _ hb]
    dsimp only
    rw [hb]

/-- Witness for C9 at a concrete device and access sequence: two `get`s
and a `read_sector` of logical sector 3 fetch it once, and the cached
entry holds the fetched bytes. -/
theorem c9_witness :
    ((cacheRun cfg9 [.get 3, .get 3, .readSector 3 10] ([] : CacheMap)).2.count 3 ≤ 1) ∧
    (∀ e : CacheEntryM,
      (cacheRun cfg9 [.get 3, .get 3, .readSector 3 10] ([] : CacheMap)).1.lookup 3 = some e →
      fetchSector cfg9 3 = some e.data ∧
      cachedGet cfg9 (cacheRun cfg9 [.get 3, .get 3, .readSector 3 10] ([] : CacheMap)).1 3 =
        (.ok e.data, (cacheRun cfg9 [.get 3, .get 3, .readSector 3 10] ([] : CacheMap)).1, [])) :=
  c9_sector_cached_once cfg9 (fun p => ⟨[p % 256, (p + 7) % 256], rfl⟩)
    [.get 3, .get 3, .readSector 3 10] 3
